import Mathlib

/-!
Verification development for the quick-lint repository.

This file gives a shallow embedding, in Lean 4, of the configuration
resolution and result-normalization pipeline of quick-lint:

* the SonarQube adapter's severity mapping, rule categorization and
  report builder (`mapSeverity`, `categorizeRule`, `buildSonarReport`,
  and the file-aggregation loop of `runSonarAnalysis`);
* the deep-merge utility (`deepMerge` from `src/utils/merge.ts`), both
  at the level of JSON-like values and at the level of an explicit
  object heap (so that non-mutation of the arguments is expressible);
* the configuration loader (`loadConfig` / `clearConfigCache`) as an
  explicit state machine over the module-level cache;
* the configuration validator (`validateConfig` from
  `src/config/schema.ts`), with JavaScript property reads modelled in
  an error monad so that a thrown TypeError is observable.

All definitions are translated from the TypeScript sources; theorems
settle the frozen specification claims about them.
-/

/- ──────────────────────────────────────────────────────────────────
   JavaScript string helpers
   ────────────────────────────────────────────────────────────────── -/

/-- JS `String.prototype.includes`, on character lists: `needle` occurs
contiguously inside `hay`. -/
def charsContain : List Char → List Char → Bool
  | [], needle => needle.isEmpty
  | c :: t, needle => List.isPrefixOf needle (c :: t) || charsContain t needle

/-- JS `hay.includes(needle)` on strings. -/
def strIncludes (hay needle : String) : Bool :=
  charsContain hay.data needle.data

/-- ASCII lowercase of one character.  Rule identifiers are ASCII, for
which this agrees with JS `toLowerCase`. -/
def charLower (c : Char) : Char :=
  if 'A' ≤ c ∧ c ≤ 'Z' then Char.ofNat (c.toNat + 32) else c

/-- JS `s.toLowerCase()` (on ASCII input). -/
def strLower (s : String) : String := ⟨s.data.map charLower⟩

/- ──────────────────────────────────────────────────────────────────
   SonarQube adapter: severity and category mapping
   (src: SonarQube adapter, `mapSeverity` / `categorizeRule` /
   `estimateEffort` and the rule tables `BUG_RULES` / `VULN_KEYWORDS`)
   ────────────────────────────────────────────────────────────────── -/

/-- The severity domain of `SonarIssue.severity`. -/
inductive SonarSeverity where
  | blocker | critical | major | minor | info
  deriving DecidableEq

/-- The classification domain of `SonarIssue.type`. -/
inductive SonarType where
  | bug | vulnerability | code_smell
  deriving DecidableEq

/-- Well-known SonarJS rule fragments that indicate bugs (the `BUG_RULES`
set; JS `Set` iteration follows insertion order, and only membership of a
fragment inside the rule id matters below). -/
def BUG_RULES : List String :=
  [ "no-all-duplicated-branches"
  , "no-element-overwrite"
  , "no-identical-conditions"
  , "no-identical-expressions"
  , "no-one-iteration-loop"
  , "no-use-of-empty-return-value"
  , "no-collection-size-mischeck"
  , "no-redundant-jump"
  , "no-same-line-conditional"
  , "no-gratuitous-expressions" ]

/-- Well-known SonarJS rule fragments that indicate security
vulnerabilities (the `VULN_KEYWORDS` array). -/
def VULN_KEYWORDS : List String :=
  [ "no-hardcoded-credentials"
  , "no-hardcoded-passwords"
  , "csrf"
  , "encryption"
  , "weak-ssl"
  , "socket"
  , "confidential" ]

/-- Source `mapSeverity(eslintSeverity, ruleId)`: map the ESLint numeric severity
(2 = error, 1 = warning) to a SonarQube severity tier.  `ruleId ?? ''` is
lowercased (`strLower`). -/
def mapSeverity (eslintSeverity : Int) (ruleId : Option String) : SonarSeverity :=
  let ruleLower := strLower (ruleId.getD "")
  if strIncludes ruleLower "security" || strIncludes ruleLower "vulnerability" then
    if eslintSeverity = 2 then .critical else .major
  else
    if eslintSeverity = 2 then .major else .minor

/-- Source `categorizeRule(ruleId)`: categorize a SonarJS rule into
bug / vulnerability / code_smell.  JS `!ruleId` is true exactly for
`null` and the empty string here. -/
def categorizeRule : Option String → SonarType
  | none => .code_smell
  | some r =>
    if r = "" then .code_smell
    else
      let ruleLower := strLower r
      if BUG_RULES.any (fun bugRule => strIncludes ruleLower bugRule) then .bug
      else if VULN_KEYWORDS.any (fun keyword => strIncludes ruleLower keyword) then .vulnerability
      else .code_smell

/-- Source `estimateEffort(type)`: fixed remediation-effort lookup.  The JS
`default: '15min'` arm is unreachable over the three-valued type. -/
def estimateEffort : SonarType → String
  | .bug => "30min"
  | .vulnerability => "1h"
  | .code_smell => "10min"

/-- The `category` field format of `LintMessage` (hyphenated), produced by
`mapCategory`. -/
inductive LintCategory where
  | bug | vulnerability | codeSmell | style
  deriving DecidableEq

/-- Source `mapCategory(type)`: convert `SonarIssue.type` to the `LintMessage`
category format. -/
def mapCategory : SonarType → LintCategory
  | .bug => .bug
  | .vulnerability => .vulnerability
  | .code_smell => .codeSmell

/- ──────────────────────────────────────────────────────────────────
   Result types (src: shared type definitions)
   ────────────────────────────────────────────────────────────────── -/

/-- Type of `LintMessage.severity` (`'error' | 'warning' | 'info'`). -/
inductive LintSeverity where
  | error | warning | info
  deriving DecidableEq

/-- Type `LintMessage`: one normalized diagnostic.  The optional `fix` payload
is not consulted by the report pipeline and is omitted. -/
structure LintMessage where
  ruleId : Option String
  severity : LintSeverity
  message : String
  line : Int
  column : Int
  endLine : Option Int
  endColumn : Option Int
  category : Option LintCategory
  deriving DecidableEq

/-- Type `FileResult`: diagnostics of one file. -/
structure FileResult where
  filePath : String
  messages : List LintMessage
  deriving DecidableEq

/-- Type `LintResult`: one tool run. -/
structure LintResult where
  tool : String
  success : Bool
  errorCount : Nat
  warningCount : Nat
  fixableCount : Nat
  files : List FileResult
  duration : Int
  deriving DecidableEq

/-- Type `SonarIssue`. -/
structure SonarIssue where
  ruleId : String
  severity : SonarSeverity
  type : SonarType
  message : String
  line : Int
  column : Int
  effort : String
  deriving DecidableEq

/-- Type `SonarFileReport`. -/
structure SonarFileReport where
  filePath : String
  issues : List SonarIssue
  deriving DecidableEq

/-- The `summary` field of `SonarReport`. -/
structure SonarSummary where
  bugs : Nat
  vulnerabilities : Nat
  codeSmells : Nat
  totalIssues : Nat
  deriving DecidableEq

/-- Type `SonarReport`. -/
structure SonarReport where
  projectName : String
  timestamp : String
  summary : SonarSummary
  files : List SonarFileReport
  deriving DecidableEq

/- ──────────────────────────────────────────────────────────────────
   SonarQube adapter: report builder (`buildSonarReport`) and the
   file-aggregation loop of `runSonarAnalysis`
   ────────────────────────────────────────────────────────────────── -/

/-- The per-message body of the inner `map` of `buildSonarReport`:
classify, map severity (`msg.severity === 'error' ? 2 : 1`), estimate
effort, and default the rule id (`msg.ruleId ?? 'unknown'`). -/
def toSonarIssue (msg : LintMessage) : SonarIssue :=
  let type := categorizeRule msg.ruleId
  let severity := mapSeverity (if msg.severity = .error then 2 else 1) msg.ruleId
  ⟨msg.ruleId.getD "unknown", severity, type, msg.message, msg.line, msg.column,
    estimateEffort type⟩

/-- Source `buildSonarReport(result)`.  The imperative counters `bugs`,
`vulnerabilities`, `codeSmells` are incremented exactly once per produced
issue, guarded by its `type` (the `else` arm counts everything that is
neither bug nor vulnerability, i.e. exactly `code_smell` over the
three-valued type); they are therefore the counts of produced issues per
classification, and `totalIssues` is computed as their sum.  `projectName`
(read from package.json by `getProjectName`) and the `new Date()`
timestamp are impure inputs, passed here as parameters. -/
def buildSonarReport (projectName timestamp : String) (result : LintResult) :
    SonarReport :=
  let files : List SonarFileReport :=
    result.files.map (fun file =>
      ⟨file.filePath, file.messages.map toSonarIssue⟩)
  let allIssues := (files.map (fun f => f.issues)).flatten
  let bugs := allIssues.countP (fun i => i.type = .bug)
  let vulnerabilities := allIssues.countP (fun i => i.type = .vulnerability)
  let codeSmells := allIssues.countP (fun i => i.type = .code_smell)
  ⟨projectName, timestamp,
    ⟨bugs, vulnerabilities, codeSmells, bugs + vulnerabilities + codeSmells⟩,
    files⟩

/-- One raw ESLint message, as consumed by the loop of
`runSonarAnalysis` (numeric severity). -/
structure RawLintMessage where
  ruleId : Option String
  severity : Int
  message : String
  line : Int
  column : Int
  endLine : Option Int
  endColumn : Option Int
  deriving DecidableEq

/-- One raw ESLint per-file result, as consumed by `runSonarAnalysis`. -/
structure RawESLintResult where
  filePath : String
  messages : List RawLintMessage
  errorCount : Nat
  warningCount : Nat
  deriving DecidableEq

/-- The per-message conversion in the loop of `runSonarAnalysis`. -/
def toLintMessage (msg : RawLintMessage) : LintMessage :=
  ⟨msg.ruleId,
    (if msg.severity = 2 then .error else .warning),
    msg.message, msg.line, msg.column, msg.endLine, msg.endColumn,
    some (mapCategory (categorizeRule msg.ruleId))⟩

/-- The file-aggregation loop of `runSonarAnalysis`: a file is pushed
onto `fileResults` only when `result.messages.length > 0`. -/
def collectFileResults (results : List RawESLintResult) : List FileResult :=
  results.filterMap (fun result =>
    if result.messages.length > 0 then
      some ⟨result.filePath, result.messages.map toLintMessage⟩
    else none)

/-- The `LintResult` assembled by `runSonarAnalysis` from the raw ESLint
results (the enabled path; `duration` is an impure input). -/
def runSonarAggregate (results : List RawESLintResult) (duration : Int) :
    LintResult :=
  let totalErrors := (results.map (fun r => r.errorCount)).sum
  let totalWarnings := (results.map (fun r => r.warningCount)).sum
  ⟨"sonarqube", totalErrors = 0, totalErrors, totalWarnings, 0,
    collectFileResults results, duration⟩

/- ──────────────────────────────────────────────────────────────────
   JS Set-based deduplication: the body of the expression
   new Set of a concatenation, spread back into an array
   (src/utils/merge.ts, array branch of deepMerge)
   ────────────────────────────────────────────────────────────────── -/

/-- First-occurrence deduplication with an accumulator of already-kept
elements: the order-preserving semantics of iterating a JS `Set`. -/
def dedupSeen [DecidableEq α] (seen : List α) : List α → List α
  | [] => []
  | x :: xs =>
    if x ∈ seen then dedupSeen seen xs
    else x :: dedupSeen (x :: seen) xs

/-- JS spread of a `Set` built from `l`: keep the first occurrence of
each element, in order. -/
def jsSetDedup [DecidableEq α] (l : List α) : List α := dedupSeen [] l

/- ──────────────────────────────────────────────────────────────────
   An explicit object heap.  JavaScript objects and arrays are
   reference values; to state non-mutation of arguments (and the exact
   SameValueZero semantics of Set deduplication) the merge engine is
   embedded against a heap of addressed nodes.  Primitives are compared
   by value, references by address — exactly SameValueZero.
   ────────────────────────────────────────────────────────────────── -/

/-- JS primitive values. -/
inductive JPrim where
  | str (s : String)
  | num (n : Int)
  | bool (b : Bool)
  | null
  | undef
  deriving DecidableEq

/-- A JS value: a primitive or a reference to a heap node. -/
inductive JRef where
  | prim (p : JPrim)
  | addr (a : Nat)
  deriving DecidableEq

/-- A heap node: a plain object (prototype `Object.prototype`), an
array, or an exotic object (class instance etc. — rejected by
`isPlainObject` and `Array.isArray`; its own properties are not
tracked). -/
inductive JNode where
  | obj (fields : List (String × JRef))
  | arr (elems : List JRef)
  | exoticNode
  deriving DecidableEq

/-- The object heap: an association of addresses to nodes plus the next
fresh address. -/
structure Heap where
  mem : List (Nat × JNode)
  next : Nat
  deriving DecidableEq

/-- Address lookup. -/
def Heap.lookup (h : Heap) (a : Nat) : Option JNode :=
  match h.mem.find? (fun p => p.1 = a) with
  | some p => some p.2
  | none => none

/-- Allocate a fresh node, returning its address. -/
def Heap.alloc (h : Heap) (n : JNode) : Nat × Heap :=
  (h.next, ⟨(h.next, n) :: h.mem, h.next + 1⟩)

/-- Overwrite the node at an existing address. -/
def Heap.set (h : Heap) (a : Nat) (n : JNode) : Heap :=
  ⟨h.mem.map (fun p => if p.1 = a then (a, n) else p), h.next⟩

/-- Association-list read with a default (JS: absent keys read as
`undefined`). -/
def assocGet (dflt : β) : List (String × β) → String → β
  | [], _ => dflt
  | (k, v) :: rest, key => if k = key then v else assocGet dflt rest key

/-- Association-list write: JS assignment updates an existing key in
place (keeping its position) and appends a new key at the end. -/
def assocSet : List (String × β) → String → β → List (String × β)
  | [], key, v => [(key, v)]
  | (k, w) :: rest, key, v =>
    if k = key then (k, v) :: rest else (k, w) :: assocSet rest key v

/-- Read `o[key]` for a heap object: named fields of objects, index reads of
arrays; everything else reads as `undefined`. -/
def readProp (h : Heap) (a : Nat) (key : String) : JRef :=
  match h.lookup a with
  | some (.obj f) => assocGet (.prim .undef) f key
  | some (.arr xs) =>
    match key.toNat? with
    | some i => xs.getD i (.prim .undef)
    | none => .prim .undef
  | _ => (.prim .undef)

/-- Write `o[key] = v` for a heap object (the merge engine only ever assigns
into the freshly spread plain object `result`). -/
def writeProp (h : Heap) (a : Nat) (key : String) (v : JRef) : Heap :=
  match h.lookup a with
  | some (.obj f) => h.set a (.obj (assocSet f key v))
  | _ => h

/-- JS `Object.keys`: field names of a plain object, index strings of an
array, nothing for other values (exotic own keys are not tracked). -/
def objectKeys (h : Heap) (a : Nat) : List String :=
  match h.lookup a with
  | some (.obj f) => f.map (fun p => p.1)
  | some (.arr xs) => (List.range xs.length).map (fun i => toString i)
  | _ => []

/-- The fields of the spread of a target: the shallow copy
made by spreading `target` into a new object literal.  `deepMerge`'s
typed contract restricts targets to records, and its recursive calls
pass plain objects. -/
def spreadFields (h : Heap) (a : Nat) : List (String × JRef) :=
  match h.lookup a with
  | some (.obj f) => f
  | some (.arr xs) =>
    ((List.range xs.length).zip xs).map (fun p => (toString p.1, p.2))
  | _ => []

/- ──────────────────────────────────────────────────────────────────
   deepMerge (src/utils/merge.ts) on the heap.

   The three functions below are the function body split at its two
   loops: `deepMergeH` makes the shallow copy of the target and hands
   it to `mergeSources` (the outer for-loop over `sources`, skipping
   falsy and non-object sources), which runs `mergeKeys` (the inner
   for-loop over `Object.keys(source)`) for each source.  For one key:
   skip `undefined` source values; recursively merge when target and
   source values are both plain objects; deduplicate the concatenation
   when both are arrays (a fresh array node, SameValueZero equality);
   otherwise assign the source value.  JavaScript recursion would not
   terminate on cyclic heaps (stack overflow), so each call consumes
   one unit of fuel and exhaustion yields `none`; all theorems hold for
   every fuel. -/

mutual

def deepMergeH : Nat → Heap → Nat → List JRef → Option (Nat × Heap)
  | 0, _, _, _ => none
  | fuel+1, h, tAddr, sources =>
    let h1 := (h.alloc (.obj (spreadFields h tAddr))).2
    match mergeSources fuel h1 h.next sources with
    | some h2 => some (h.next, h2)
    | none => none

def mergeSources : Nat → Heap → Nat → List JRef → Option Heap
  | 0, _, _, _ => none
  | _+1, h, _, [] => some h
  | fuel+1, h, rAddr, source :: rest =>
    match source with
    | .addr sAddr =>
      match mergeKeys fuel h rAddr sAddr (objectKeys h sAddr) with
      | some h2 => mergeSources fuel h2 rAddr rest
      | none => none
    | .prim _ => mergeSources fuel h rAddr rest

def mergeKeys : Nat → Heap → Nat → Nat → List String → Option Heap
  | 0, _, _, _, _ => none
  | _+1, h, _, _, [] => some h
  | fuel+1, h, rAddr, sAddr, key :: rest =>
    let tv := readProp h rAddr key
    let sv := readProp h sAddr key
    match sv with
    | .prim .undef => mergeKeys fuel h rAddr sAddr rest
    | _ =>
      match tv, sv with
      | .addr ta, .addr sa =>
        match h.lookup ta, h.lookup sa with
        | some (.obj _), some (.obj _) =>
          match deepMergeH fuel h ta [.addr sa] with
          | some (m, h2) =>
            mergeKeys fuel (writeProp h2 rAddr key (.addr m)) rAddr sAddr rest
          | none => none
        | some (.arr te), some (.arr se) =>
          let h2 := (h.alloc (.arr (jsSetDedup (te ++ se)))).2
          mergeKeys fuel (writeProp h2 rAddr key (.addr h.next)) rAddr sAddr rest
        | _, _ => mergeKeys fuel (writeProp h rAddr key sv) rAddr sAddr rest
      | _, _ => mergeKeys fuel (writeProp h rAddr key sv) rAddr sAddr rest

end

/- ──────────────────────────────────────────────────────────────────
   JSON-like values.  Loader and validator work on configuration
   values, for which reference identity is irrelevant; they use this
   value-level type (`exotic` stands for objects whose prototype is not
   `Object.prototype` and whose own properties are not tracked).
   ────────────────────────────────────────────────────────────────── -/

/-- A JavaScript value as a tree. -/
inductive JVal where
  | null
  | undef
  | bool (b : Bool)
  | num (n : Int)
  | str (s : String)
  | arr (xs : List JVal)
  | obj (fields : List (String × JVal))
  | exotic
  deriving Inhabited

mutual

/-- Structural equality of JS value trees (used as the value-level
counterpart of SameValueZero inside the array-union branch; exact for
primitive elements, which is what the config arrays contain). -/
def jvalBeq : JVal → JVal → Bool
  | .null, .null => true
  | .undef, .undef => true
  | .bool a, .bool b => a = b
  | .num a, .num b => a = b
  | .str a, .str b => a = b
  | .arr xs, .arr ys => jvalListBeq xs ys
  | .obj fs, .obj gs => jvalFieldsBeq fs gs
  | .exotic, .exotic => true
  | _, _ => false

def jvalListBeq : List JVal → List JVal → Bool
  | [], [] => true
  | x :: xs, y :: ys => jvalBeq x y && jvalListBeq xs ys
  | _, _ => false

def jvalFieldsBeq : List (String × JVal) → List (String × JVal) → Bool
  | [], [] => true
  | (k, v) :: fs, (l, w) :: gs => k = l && jvalBeq v w && jvalFieldsBeq fs gs
  | _, _ => false

end

/-- First-occurrence deduplication by an explicit equality test (the
value-level `jsSetDedup`). -/
def dedupSeenBy (eqb : α → α → Bool) (seen : List α) : List α → List α
  | [] => []
  | x :: xs =>
    if seen.any (fun y => eqb x y) then dedupSeenBy eqb seen xs
    else x :: dedupSeenBy eqb (x :: seen) xs

/-- Value-level JS Set spread. -/
def jsSetDedupV (l : List JVal) : List JVal := dedupSeenBy jvalBeq [] l

/- ──────────────────────────────────────────────────────────────────
   deepMerge (src/utils/merge.ts) on value trees, used by the loader.
   `applySources` is the outer loop over `sources` (skipping falsy and
   non-object sources), `applyFields` the inner loop over the keys of
   one source.  A recursive merge of two plain objects spreads the
   target object and applies the source object, which at value level
   is `applyFields` of its fields.
   ────────────────────────────────────────────────────────────────── -/

def applyFields : List (String × JVal) → List (String × JVal) → List (String × JVal)
  | result, [] => result
  | result, (key, sv) :: rest =>
    let next :=
      match assocGet JVal.undef result key, sv with
      | _, .undef => result
      | .obj tf, .obj sf => assocSet result key (.obj (applyFields tf sf))
      | .arr ta, .arr sa => assocSet result key (.arr (jsSetDedupV (ta ++ sa)))
      | _, sv' => assocSet result key sv'
    applyFields next rest
termination_by _r s => sizeOf s

/-- The outer loop of `deepMerge` over its variadic `sources`.  Falsy
and primitive sources are skipped by the guard; key iteration of array
and exotic sources (possible in untyped JS, outside the `Partial`
record contract) is not modelled. -/
def applySources : List (String × JVal) → List JVal → List (String × JVal)
  | result, [] => result
  | result, .obj sf :: rest => applySources (applyFields result sf) rest
  | result, _ :: rest => applySources result rest

/-- Source `deepMerge(target, ...sources)` on value trees: the shallow copy of
the spread is value-identical to the target. -/
def deepMergeV (target : JVal) (sources : List JVal) : JVal :=
  match target with
  | .obj tf => .obj (applySources tf sources)
  | t => t

/- ──────────────────────────────────────────────────────────────────
   defaultConfig (src/config/defaults.ts), embedded as a value tree.
   ────────────────────────────────────────────────────────────────── -/

/-- The built-in default configuration. -/
def defaultConfigJ : JVal :=
  .obj
    [ ("eslint", .obj
        [ ("enabled", .bool true)
        , ("rules", .obj
            [ ("no-debugger", .str "error")
            , ("no-duplicate-case", .str "error")
            , ("no-dupe-keys", .str "error")
            , ("no-dupe-args", .str "error")
            , ("no-unreachable", .str "error")
            , ("no-constant-condition", .str "warn")
            , ("no-empty", .str "warn")
            , ("no-extra-boolean-cast", .str "warn")
            , ("no-self-compare", .str "error")
            , ("no-template-curly-in-string", .str "warn")
            , ("no-loss-of-precision", .str "error")
            , ("no-unsafe-optional-chaining", .str "error")
            , ("no-unused-private-class-members", .str "warn")
            , ("eqeqeq", .arr [.str "error", .str "always", .obj [("null", .str "ignore")]])
            , ("no-var", .str "error")
            , ("prefer-const", .str "warn")
            , ("no-console", .str "warn")
            , ("no-eval", .str "error")
            , ("no-implied-eval", .str "error")
            , ("no-new-wrappers", .str "error")
            , ("no-throw-literal", .str "error")
            , ("no-useless-catch", .str "warn")
            , ("no-useless-return", .str "warn")
            , ("no-useless-rename", .str "warn")
            , ("no-useless-computed-key", .str "warn")
            , ("curly", .arr [.str "warn", .str "multi-line"])
            , ("no-else-return", .arr [.str "warn", .obj [("allowElseIf", .bool false)]])
            , ("no-param-reassign", .str "warn")
            , ("prefer-template", .str "warn")
            , ("object-shorthand", .arr [.str "warn", .str "always"])
            , ("prefer-arrow-callback", .str "warn")
            , ("no-unneeded-ternary", .str "warn")
            , ("no-lonely-if", .str "warn")
            , ("prefer-destructuring", .arr [.str "warn",
                .obj [("object", .bool true), ("array", .bool false)]])
            ])
        , ("extends", .arr [])
        , ("ignorePatterns", .arr
            [ .str "node_modules", .str "dist", .str "build", .str ".next"
            , .str "coverage", .str "*.min.js" ])
        , ("react", .bool true)
        , ("typescript", .bool true)
        ])
    , ("prettier", .obj
        [ ("enabled", .bool true)
        , ("semi", .bool true)
        , ("singleQuote", .bool true)
        , ("trailingComma", .str "all")
        , ("tabWidth", .num 2)
        , ("printWidth", .num 100)
        , ("arrowParens", .str "always")
        , ("endOfLine", .str "lf")
        , ("bracketSpacing", .bool true)
        , ("jsxSingleQuote", .bool false)
        ])
    , ("commitlint", .obj
        [ ("enabled", .bool true)
        , ("extends", .arr [.str "@commitlint/config-conventional"])
        , ("rules", .obj [])
        ])
    , ("sonarqube", .obj
        [ ("enabled", .bool true)
        , ("rules", .obj
            [ ("sonarjs/cognitive-complexity", .arr [.str "warn", .num 15])
            , ("sonarjs/no-duplicate-string", .arr [.str "warn", .obj [("threshold", .num 3)]])
            ])
        , ("report", .obj
            [ ("format", .str "html")
            , ("outputDir", .str "./reports")
            ])
        ])
    , ("husky", .obj
        [ ("enabled", .bool true)
        , ("hooks", .obj
            [ ("pre-commit", .str "npx quick-lint lint --staged")
            , ("commit-msg", .str "npx quick-lint commitlint --edit \"$1\"")
            ])
        ])
    , ("ide", .obj [("generateConfigs", .bool true)])
    ]

/- ──────────────────────────────────────────────────────────────────
   Configuration loader (loadConfig / clearConfigCache) as a state
   machine over the module-level `cachedConfig`.
   ────────────────────────────────────────────────────────────────── -/

/-- JS truthiness. -/
def jsTruthy : JVal → Bool
  | .null => false
  | .undef => false
  | .bool b => b
  | .num n => !(n = 0)
  | .str s => !(s = "")
  | _ => true

/-- What cosmiconfig's search resolves to: a config value and the path
it was loaded from. -/
structure CosmicResult where
  config : JVal
  filepath : String

/-- The module-level mutable state of the loader: `cachedConfig`. -/
structure LoaderState where
  cachedConfig : Option JVal

/-- What one `loadConfig` call returns, plus whether it performed a new
search (resolution) at all — `searched = false` means the call was
answered from the cache. -/
structure LoadOutcome where
  config : JVal
  searched : Bool

/-- Source `loadConfig(cwd?)`.  The impure `explorer.search` is a parameter:
it either throws (`Except.error`, absorbed by the catch branch), finds
nothing, or yields a result whose `config` field may still be falsy
(the code requires `result && result.config`).  Every branch returns a
value — the function itself never throws — and every branch that runs
assigns `cachedConfig`.  The not-found and error branches both cache a
shallow copy of `defaultConfig`, which is value-identical to
`defaultConfigJ`. -/
def loadConfig (search : Except String (Option CosmicResult))
    (st : LoaderState) : LoadOutcome × LoaderState :=
  match st.cachedConfig with
  | some c => (⟨c, false⟩, st)
  | none =>
    match search with
    | .ok (some result) =>
      if jsTruthy result.config then
        let merged := deepMergeV defaultConfigJ [result.config]
        (⟨merged, true⟩, ⟨some merged⟩)
      else
        (⟨defaultConfigJ, true⟩, ⟨some defaultConfigJ⟩)
    | .ok none => (⟨defaultConfigJ, true⟩, ⟨some defaultConfigJ⟩)
    | .error _ => (⟨defaultConfigJ, true⟩, ⟨some defaultConfigJ⟩)

/-- Source `clearConfigCache()`: reset `cachedConfig` to null. -/
def clearConfigCache (_ : LoaderState) : LoaderState := ⟨none⟩

/- ──────────────────────────────────────────────────────────────────
   Configuration validator (src/config/schema.ts).  JS property reads
   are modelled in an error monad: reading a property of `null` or
   `undefined` throws a TypeError, every other read succeeds (absent
   keys and named properties of primitives read as `undefined`; own
   properties of exotic objects are not tracked and read as
   `undefined`).
   ────────────────────────────────────────────────────────────────── -/

/-- Read `v[key]` as JS evaluates it, with thrown TypeErrors explicit. -/
def jsGetProp (v : JVal) (key : String) : Except String JVal :=
  match v with
  | .null => .error ("TypeError: Cannot read properties of null (reading " ++ key ++ ")")
  | .undef => .error ("TypeError: Cannot read properties of undefined (reading " ++ key ++ ")")
  | .obj f => .ok (assocGet .undef f key)
  | _ => .ok (.undef)

/-- JS `typeof v === 'object'` (true for null, objects and arrays). -/
def typeofObject : JVal → Bool
  | .null => true
  | .obj _ => true
  | .arr _ => true
  | .exotic => true
  | _ => false

/-- JS `v === null`. -/
def isNullV : JVal → Bool
  | .null => true
  | _ => false

/-- JS `v === undefined`. -/
def isUndefV : JVal → Bool
  | .undef => true
  | _ => false

/-- JS `typeof v === 'number'`. -/
def isNumV : JVal → Bool
  | .num _ => true
  | _ => false

/-- JS `Array.isArray(v)`. -/
def isArrV : JVal → Bool
  | .arr _ => true
  | _ => false

/-- JS `options.includes(v)` for a list of string literals (strict
equality: only an equal string matches). -/
def includesStr (options : List String) (v : JVal) : Bool :=
  options.any (fun o => match v with | .str s => s = o | _ => false)

/-- Source `validateConfig(config)` from src/config/schema.ts, with the error
accumulator `errors` threaded through the four independent section
checks.  A thrown TypeError surfaces as `Except.error`. -/
def validateConfig (config : JVal) : Except String (Bool × List String) := do
  if !typeofObject config || isNullV config then
    return (false, ["Config must be an object"])
  let e0 : List String := []
  let eslintV ← jsGetProp config "eslint"
  let e1 ←
    if isUndefV eslintV then pure e0
    else if !typeofObject eslintV || isNullV eslintV then
      pure (e0 ++ ["eslint config must be an object"])
    else do
      let rules ← jsGetProp eslintV "rules"
      let ea := if !isUndefV rules && !typeofObject rules then
          e0 ++ ["eslint.rules must be an object"]
        else e0
      let patterns ← jsGetProp eslintV "ignorePatterns"
      let eb := if !isUndefV patterns && !isArrV patterns then
          ea ++ ["eslint.ignorePatterns must be an array"]
        else ea
      pure eb
  let prettierV ← jsGetProp config "prettier"
  let e2 ←
    if isUndefV prettierV then pure e1
    else if !typeofObject prettierV || isNullV prettierV then
      pure (e1 ++ ["prettier config must be an object"])
    else do
      let tw ← jsGetProp prettierV "tabWidth"
      let ea := if !isUndefV tw && !isNumV tw then
          e1 ++ ["prettier.tabWidth must be a number"]
        else e1
      let pw ← jsGetProp prettierV "printWidth"
      let eb := if !isUndefV pw && !isNumV pw then
          ea ++ ["prettier.printWidth must be a number"]
        else ea
      let tc ← jsGetProp prettierV "trailingComma"
      let ec := if !isUndefV tc && !includesStr ["all", "es5", "none"] tc then
          eb ++ ["prettier.trailingComma must be one of: all, es5, none"]
        else eb
      pure ec
  let sonarV ← jsGetProp config "sonarqube"
  let e3 ←
    if isUndefV sonarV then pure e2
    else if !typeofObject sonarV || isNullV sonarV then
      pure (e2 ++ ["sonarqube config must be an object"])
    else do
      let report ← jsGetProp sonarV "report"
      if isUndefV report then pure e2
      else do
        let fmt ← jsGetProp report "format"
        if !isUndefV fmt && !includesStr ["html", "json", "both"] fmt then
          pure (e2 ++ ["sonarqube.report.format must be one of: html, json, both"])
        else pure e2
  let huskyV ← jsGetProp config "husky"
  let e4 ←
    if isUndefV huskyV then pure e3
    else if !typeofObject huskyV || isNullV huskyV then
      pure (e3 ++ ["husky config must be an object"])
    else do
      let hooks ← jsGetProp huskyV "hooks"
      if !isUndefV hooks && !typeofObject hooks then
        pure (e3 ++ ["husky.hooks must be an object"])
      else pure e3
  return (e4.isEmpty, e4)

/- ──────────────────────────────────────────────────────────────────
   Concrete heaps used by witnesses
   ────────────────────────────────────────────────────────────────── -/

/-- A base object at address 2 and an override object at address 3,
both holding an array at key "a" (addresses 0 and 1). -/
def c3DemoHeap : Heap :=
  ⟨[ (0, .arr [.prim (.str "x")])
   , (1, .arr [.prim (.str "x"), .prim (.str "y")])
   , (2, .obj [("a", .addr 0)])
   , (3, .obj [("a", .addr 1)]) ], 4⟩

/-- The heap after merging the override into the base once. -/
def c3DemoHeap2 : Heap :=
  match deepMergeH 9 c3DemoHeap 2 [.addr 3] with
  | some (_, h) => h
  | none => c3DemoHeap

/-- The heap after merging the same override a second time. -/
def c3DemoHeap3 : Heap :=
  match deepMergeH 9 c3DemoHeap2 4 [.addr 3] with
  | some (_, h) => h
  | none => c3DemoHeap2

/-- A two-object heap for the non-mutation witness. -/
def c9DemoHeap : Heap :=
  ⟨[(0, .obj [("a", .prim (.str "x"))]), (1, .obj [("a", .prim (.str "y"))])], 2⟩

/-- The heap after merging object 1 into object 0. -/
def c9DemoMerged : Heap :=
  match deepMergeH 5 c9DemoHeap 0 [.addr 1] with
  | some (_, h) => h
  | none => c9DemoHeap

/-- Demo input: a concrete one-file, one-message `LintResult`, used by the C6
witness. -/
def demoLintInput : LintResult :=
  ⟨"sonarqube", true, 1, 0, 0,
    [⟨"a.ts", [⟨some "x", .error, "m", 1, 1, none, none, none⟩]⟩], 0⟩

/- ──────────────────────────────────────────────────────────────────
   Claim C1 — report summary consistency
   ────────────────────────────────────────────────────────────────── -/

/-- C1: for every input `LintResult`, the report built by
`buildSonarReport` satisfies `summary.totalIssues = summary.bugs +
summary.vulnerabilities + summary.codeSmells`; each of the three counters
equals the number of contained issues with that classification; and for
an input with an empty file list the report has `totalIssues = 0` and an
empty file list. -/
theorem c1_report_summary_consistent (pn ts : String) (result : LintResult) :
    (buildSonarReport pn ts result).summary.totalIssues =
        (buildSonarReport pn ts result).summary.bugs +
        (buildSonarReport pn ts result).summary.vulnerabilities +
        (buildSonarReport pn ts result).summary.codeSmells
    ∧ (buildSonarReport pn ts result).summary.bugs =
        (((buildSonarReport pn ts result).files.map
            (fun f => f.issues)).flatten.countP (fun i => i.type = .bug))
    ∧ (buildSonarReport pn ts result).summary.vulnerabilities =
        (((buildSonarReport pn ts result).files.map
            (fun f => f.issues)).flatten.countP (fun i => i.type = .vulnerability))
    ∧ (buildSonarReport pn ts result).summary.codeSmells =
        (((buildSonarReport pn ts result).files.map
            (fun f => f.issues)).flatten.countP (fun i => i.type = .code_smell))
    ∧ (result.files = [] →
        (buildSonarReport pn ts result).summary.totalIssues = 0
        ∧ (buildSonarReport pn ts result).files = []) := by
  refine ⟨rfl, rfl, rfl, rfl, fun h => ?_⟩
  simp [buildSonarReport, h]

/-- Witness for C1 at a concrete empty input. -/
theorem c1_report_summary_consistent_witness :
    (⟨"sonarqube", true, 0, 0, 0, [], 0⟩ : LintResult).files = []
    ∧ ((buildSonarReport "p" "t" ⟨"sonarqube", true, 0, 0, 0, [], 0⟩).summary.totalIssues = 0
       ∧ (buildSonarReport "p" "t" ⟨"sonarqube", true, 0, 0, 0, [], 0⟩).files = []) :=
  ⟨rfl, (c1_report_summary_consistent "p" "t" _).2.2.2.2 rfl⟩

/- ──────────────────────────────────────────────────────────────────
   Claim C2 — rule categorization
   ────────────────────────────────────────────────────────────────── -/

/-- C2: `categorizeRule` is a deterministic total function of a nullable
rule id: null and the empty string give `code_smell`; otherwise a
lowercased id containing a `BUG_RULES` fragment gives `bug` (the bug
check runs first, so this holds even when a vulnerability keyword is also
contained); otherwise a `VULN_KEYWORDS` fragment gives `vulnerability`;
otherwise `code_smell`.  In particular `"no-identical-conditions"` is a
bug, `"no-hardcoded-credentials"` a vulnerability, and `"prefer-const"` a
code smell. -/
theorem c2_categorize_rule_spec :
    categorizeRule none = .code_smell
    ∧ categorizeRule (some "") = .code_smell
    ∧ (∀ r : String, r ≠ "" →
        (BUG_RULES.any (fun b => strIncludes (strLower r) b) = true →
          categorizeRule (some r) = .bug)
        ∧ (BUG_RULES.any (fun b => strIncludes (strLower r) b) = false →
           VULN_KEYWORDS.any (fun k => strIncludes (strLower r) k) = true →
          categorizeRule (some r) = .vulnerability)
        ∧ (BUG_RULES.any (fun b => strIncludes (strLower r) b) = false →
           VULN_KEYWORDS.any (fun k => strIncludes (strLower r) k) = false →
          categorizeRule (some r) = .code_smell))
    ∧ categorizeRule (some "no-identical-conditions") = .bug
    ∧ categorizeRule (some "no-hardcoded-credentials") = .vulnerability
    ∧ categorizeRule (some "prefer-const") = .code_smell := by
  refine ⟨rfl, rfl, fun r hr => ⟨?_, ?_, ?_⟩, rfl, rfl, rfl⟩
  · intro hb
    simp [categorizeRule, hr, hb]
  · intro hb hv
    simp [categorizeRule, hr, hb, hv]
  · intro hb hv
    simp [categorizeRule, hr, hb, hv]

/-- Witness for C2 at the concrete rule id "no-identical-conditions". -/
theorem c2_categorize_rule_spec_witness :
    ("no-identical-conditions" ≠ ""
      ∧ BUG_RULES.any (fun b => strIncludes (strLower "no-identical-conditions") b) = true)
    ∧ categorizeRule (some "no-identical-conditions") = .bug :=
  ⟨⟨by decide, by decide⟩,
    (c2_categorize_rule_spec.2.2.1 "no-identical-conditions" (by decide)).1 (by decide)⟩

/- ──────────────────────────────────────────────────────────────────
   Claim C5 — severity mapping
   ────────────────────────────────────────────────────────────────── -/

/-- C5: for a blocking flag (error level = ESLint severity 2) and a
nullable rule id, `mapSeverity` yields critical / major / major / minor
according to whether the lowercased id contains "security" or
"vulnerability" and whether the diagnostic is blocking; and for every
numeric severity it never yields blocker or info. -/
theorem c5_map_severity_spec (blocking : Bool) (ruleId : Option String) (sev : Int) :
    mapSeverity (if blocking then 2 else 1) ruleId =
      (if strIncludes (strLower (ruleId.getD "")) "security"
          || strIncludes (strLower (ruleId.getD "")) "vulnerability" then
        (if blocking then .critical else .major)
      else (if blocking then .major else .minor))
    ∧ mapSeverity sev ruleId ≠ .blocker
    ∧ mapSeverity sev ruleId ≠ .info := by
  refine ⟨?_, ?_, ?_⟩
  · cases blocking <;> simp [mapSeverity]
  · simp only [mapSeverity]
    split <;> split <;> simp
  · simp only [mapSeverity]
    split <;> split <;> simp

/- ──────────────────────────────────────────────────────────────────
   Claim C6 — no empty file groups
   ────────────────────────────────────────────────────────────────── -/

/-- C6 counterexample: `buildSonarReport` itself does not filter out
files, so an input `LintResult` containing a file with zero messages
yields a report containing a file group with zero issues. -/
theorem c6_counterexample :
    ((buildSonarReport "p" "t"
        ⟨"sonarqube", true, 0, 0, 0, [⟨"a.ts", []⟩], 0⟩).files.any
      (fun f => f.issues.isEmpty)) = true := rfl

/-- C6 (amended): `buildSonarReport` maps the input file list one-to-one
(it performs no filtering), so whenever every input file has at least one
message, every report file group has at least one issue; the omission of
zero-diagnostic files happens upstream, in the aggregation loop of
`runSonarAnalysis`, whose output files all have at least one message. -/
theorem c6_report_files_nonempty (pn ts : String) (result : LintResult)
    (h : result.files.all (fun f => !f.messages.isEmpty) = true) :
    ((buildSonarReport pn ts result).files.all (fun g => !g.issues.isEmpty)) = true
    ∧ (buildSonarReport pn ts result).files.length = result.files.length
    ∧ (∀ results : List RawESLintResult,
        (collectFileResults results).all (fun f => !f.messages.isEmpty) = true) := by
  refine ⟨?_, by simp [buildSonarReport], ?_⟩
  · simpa [buildSonarReport, List.all_map, Function.comp] using h
  · intro results
    simp only [collectFileResults, List.all_eq_true]
    intro f hf
    rw [List.mem_filterMap] at hf
    obtain ⟨r, _, he⟩ := hf
    by_cases hlen : r.messages.length > 0
    · rw [if_pos hlen] at he
      obtain rfl := Option.some.inj he
      cases hm : r.messages with
      | nil => rw [hm] at hlen; simp at hlen
      | cons m ms => simp [hm]
    · rw [if_neg hlen] at he
      cases he

/-- Witness for C6 at a concrete one-file, one-message input. -/
theorem c6_report_files_nonempty_witness :
    demoLintInput.files.all (fun f => !f.messages.isEmpty) = true
    ∧ ((buildSonarReport "p" "t" demoLintInput).files.all
        (fun g => !g.issues.isEmpty)) = true :=
  ⟨rfl, (c6_report_files_nonempty "p" "t" demoLintInput rfl).1⟩

/- ──────────────────────────────────────────────────────────────────
   Helper lemmas: Set-spread deduplication
   ────────────────────────────────────────────────────────────────── -/

theorem mem_dedupSeen [DecidableEq α] (a : α) (l : List α) :
    ∀ seen, a ∈ dedupSeen seen l ↔ a ∈ l ∧ a ∉ seen := by
  induction l with
  | nil => intro seen; simp [dedupSeen]
  | cons x xs ih =>
    intro seen
    by_cases hx : x ∈ seen
    · simp only [dedupSeen, if_pos hx, ih seen]
      constructor
      · rintro ⟨h1, h2⟩
        exact ⟨List.mem_cons_of_mem x h1, h2⟩
      · rintro ⟨h1, h2⟩
        rcases List.mem_cons.mp h1 with rfl | h1
        · exact absurd hx h2
        · exact ⟨h1, h2⟩
    · simp only [dedupSeen, if_neg hx]
      constructor
      · intro h
        rcases List.mem_cons.mp h with rfl | h
        · exact ⟨List.mem_cons_self _ _, hx⟩
        · rw [ih (x :: seen)] at h
          obtain ⟨h1, h2⟩ := h
          exact ⟨List.mem_cons_of_mem x h1,
            fun hs => h2 (List.mem_cons_of_mem x hs)⟩
      · rintro ⟨h1, h2⟩
        rcases List.mem_cons.mp h1 with rfl | h1
        · exact List.mem_cons_self _ _
        · by_cases hax : a = x
          · subst hax; exact List.mem_cons_self _ _
          · refine List.mem_cons_of_mem x ?_
            rw [ih (x :: seen)]
            exact ⟨h1, fun hs => (List.mem_cons.mp hs).elim hax h2⟩

theorem dedupSeen_all_seen [DecidableEq α] (zs : List α) :
    ∀ seen, (∀ y ∈ zs, y ∈ seen) → dedupSeen seen zs = [] := by
  induction zs with
  | nil => intro seen _; rfl
  | cons z zs ih =>
    intro seen hz
    simp only [dedupSeen, if_pos (hz z (List.mem_cons_self _ _))]
    exact ih seen (fun y hy => hz y (List.mem_cons_of_mem _ hy))

theorem dedupSeen_append_of_subset [DecidableEq α] (xs : List α) :
    ∀ (seen ys : List α), (∀ y ∈ ys, y ∈ xs ∨ y ∈ seen) →
      dedupSeen seen (xs ++ ys) = dedupSeen seen xs := by
  induction xs with
  | nil =>
    intro seen ys h
    have h' : ∀ y ∈ ys, y ∈ seen := by
      intro y hy
      rcases h y hy with h1 | h1
      · cases h1
      · exact h1
    simpa using dedupSeen_all_seen ys seen h'
  | cons x xs ih =>
    intro seen ys h
    by_cases hx : x ∈ seen
    · simp only [List.cons_append, dedupSeen, if_pos hx]
      refine ih seen ys (fun y hy => ?_)
      rcases h y hy with h1 | h1
      · rcases List.mem_cons.mp h1 with rfl | h2
        · exact Or.inr hx
        · exact Or.inl h2
      · exact Or.inr h1
    · simp only [List.cons_append, dedupSeen, if_neg hx]
      congr 1
      refine ih (x :: seen) ys (fun y hy => ?_)
      rcases h y hy with h1 | h1
      · rcases List.mem_cons.mp h1 with rfl | h2
        · exact Or.inr (List.mem_cons_self _ _)
        · exact Or.inl h2
      · exact Or.inr (List.mem_cons_of_mem _ h1)

theorem dedupSeen_idem [DecidableEq α] (l : List α) :
    ∀ seen, dedupSeen seen (dedupSeen seen l) = dedupSeen seen l := by
  induction l with
  | nil => intro seen; rfl
  | cons x xs ih =>
    intro seen
    by_cases hx : x ∈ seen
    · simp only [dedupSeen, if_pos hx]
      exact ih seen
    · simp only [dedupSeen, if_neg hx]
      congr 1
      exact ih (x :: seen)

/-- Deduplicating an already-deduplicated union with the same override
again changes nothing: the algebraic heart of array-merge idempotence. -/
theorem jsSetDedup_append_cancel [DecidableEq α] (B O : List α) :
    jsSetDedup (jsSetDedup (B ++ O) ++ O) = jsSetDedup (B ++ O) := by
  unfold jsSetDedup
  rw [dedupSeen_append_of_subset (dedupSeen [] (B ++ O)) [] O ?_]
  · exact dedupSeen_idem (B ++ O) []
  · intro y hy
    left
    rw [mem_dedupSeen]
    exact ⟨List.mem_append_right B hy, by simp⟩

/- ──────────────────────────────────────────────────────────────────
   Helper lemmas: association lists
   ────────────────────────────────────────────────────────────────── -/

theorem assocGet_assocSet_same (d v : β) (l : List (String × β)) (key : String) :
    assocGet d (assocSet l key v) key = v := by
  induction l with
  | nil => simp [assocSet, assocGet]
  | cons p rest ih =>
    obtain ⟨k, w⟩ := p
    by_cases hk : k = key
    · simp [assocSet, assocGet, hk]
    · simp [assocSet, assocGet, hk, ih]

theorem assocGet_assocSet_ne (d v : β) (l : List (String × β)) (key key' : String)
    (hne : key' ≠ key) :
    assocGet d (assocSet l key v) key' = assocGet d l key' := by
  induction l with
  | nil => simp [assocSet, assocGet, Ne.symm hne]
  | cons p rest ih =>
    obtain ⟨k, w⟩ := p
    by_cases hk : k = key
    · subst hk
      simp [assocSet, assocGet, Ne.symm hne]
    · simp [assocSet, assocGet, hk, ih]

theorem assocGet_ne_default_mem (d : β) (l : List (String × β)) (key : String)
    (h : assocGet d l key ≠ d) : key ∈ l.map Prod.fst := by
  induction l with
  | nil => simp [assocGet] at h
  | cons p rest ih =>
    obtain ⟨k, w⟩ := p
    by_cases hk : k = key
    · subst hk; simp
    · simp only [assocGet, if_neg hk] at h
      simpa using Or.inr (ih h)

/- ──────────────────────────────────────────────────────────────────
   Helper lemmas: heap operations
   ────────────────────────────────────────────────────────────────── -/

theorem heap_alloc_next (h : Heap) (n : JNode) :
    ((h.alloc n).2).next = h.next + 1 := rfl

theorem heap_lookup_alloc_self (h : Heap) (n : JNode) :
    ((h.alloc n).2).lookup h.next = some n := by
  unfold Heap.alloc Heap.lookup
  simp

theorem heap_lookup_alloc_ne (h : Heap) (n : JNode) (a : Nat) (ha : a ≠ h.next) :
    ((h.alloc n).2).lookup a = h.lookup a := by
  unfold Heap.alloc Heap.lookup
  simp [Ne.symm ha]

theorem find_map_set_ne (l : List (Nat × JNode)) (b : Nat) (n : JNode) (a : Nat)
    (hab : a ≠ b) :
    (l.map (fun p => if p.1 = b then (b, n) else p)).find? (fun p => p.1 = a)
      = l.find? (fun p => p.1 = a) := by
  induction l with
  | nil => rfl
  | cons p rest ih =>
    obtain ⟨k, w⟩ := p
    by_cases hb : k = b
    · subst hb
      have hka : ¬ (k = a) := fun hk => hab (hk ▸ rfl)
      simp only [List.map_cons, if_pos rfl]
      rw [List.find?_cons_of_neg _ (by simpa using Ne.symm hab),
        List.find?_cons_of_neg _ (by simpa using hka)]
      exact ih
    · by_cases hak : k = a
      · subst hak
        simp only [List.map_cons, if_neg hb]
        rw [List.find?_cons_of_pos _ (by simp), List.find?_cons_of_pos _ (by simp)]
      · simp only [List.map_cons, if_neg hb]
        rw [List.find?_cons_of_neg _ (by simpa using hak),
          List.find?_cons_of_neg _ (by simpa using hak)]
        exact ih

theorem find_map_set_self (l : List (Nat × JNode)) (a : Nat) (n : JNode)
    (p0 : Nat × JNode) (h0 : l.find? (fun p => p.1 = a) = some p0) :
    (l.map (fun p => if p.1 = a then (a, n) else p)).find? (fun p => p.1 = a)
      = some (a, n) := by
  induction l with
  | nil => simp at h0
  | cons p rest ih =>
    obtain ⟨k, w⟩ := p
    by_cases hk : k = a
    · subst hk
      simp only [List.map_cons, if_pos rfl]
      rw [List.find?_cons_of_pos _ (by simp)]
      simp
    · simp only [List.map_cons, if_neg hk]
      rw [List.find?_cons_of_neg _ (by simpa using hk)]
      rw [List.find?_cons_of_neg _ (by simpa using hk)] at h0
      exact ih h0

theorem heap_set_next (h : Heap) (a : Nat) (n : JNode) :
    (h.set a n).next = h.next := rfl

theorem heap_lookup_set_ne (h : Heap) (b : Nat) (n : JNode) (a : Nat)
    (hab : a ≠ b) :
    (h.set b n).lookup a = h.lookup a := by
  unfold Heap.set Heap.lookup
  rw [find_map_set_ne h.mem b n a hab]

theorem heap_lookup_set_self (h : Heap) (a : Nat) (n n0 : JNode)
    (h0 : h.lookup a = some n0) :
    (h.set a n).lookup a = some n := by
  unfold Heap.set Heap.lookup
  unfold Heap.lookup at h0
  cases hf : h.mem.find? (fun p => p.1 = a) with
  | none => rw [hf] at h0; simp at h0
  | some p0 => rw [find_map_set_self h.mem a n p0 hf]

theorem writeProp_next (h : Heap) (a : Nat) (key : String) (v : JRef) :
    (writeProp h a key v).next = h.next := by
  unfold writeProp
  split <;> rfl

theorem lookup_writeProp_ne (h : Heap) (b : Nat) (key : String) (v : JRef)
    (a : Nat) (hab : a ≠ b) :
    (writeProp h b key v).lookup a = h.lookup a := by
  unfold writeProp
  split
  · exact heap_lookup_set_ne h b _ a hab
  · rfl

theorem lookup_writeProp_obj (h : Heap) (a : Nat) (key : String) (v : JRef)
    (f : List (String × JRef)) (hf : h.lookup a = some (.obj f)) :
    (writeProp h a key v).lookup a = some (.obj (assocSet f key v)) := by
  unfold writeProp
  rw [hf]
  exact heap_lookup_set_self h a _ _ hf

theorem readProp_writeProp_same_obj (h : Heap) (a : Nat) (key : String)
    (v : JRef) (f : List (String × JRef)) (hf : h.lookup a = some (.obj f)) :
    readProp (writeProp h a key v) a key = v := by
  unfold readProp
  rw [lookup_writeProp_obj h a key v f hf]
  exact assocGet_assocSet_same _ _ _ _

theorem readProp_writeProp_ne_key (h : Heap) (a : Nat) (key key' : String)
    (v : JRef) (hkk : key' ≠ key) :
    readProp (writeProp h a key v) a key' = readProp h a key' := by
  cases hf : h.lookup a with
  | none =>
    unfold writeProp
    rw [hf]
  | some nd =>
    cases nd with
    | obj f =>
      unfold readProp
      rw [lookup_writeProp_obj h a key v f hf, hf]
      exact assocGet_assocSet_ne _ _ _ _ _ hkk
    | arr xs =>
      unfold writeProp
      rw [hf]
    | exoticNode =>
      unfold writeProp
      rw [hf]

theorem readProp_writeProp_ne_addr (h : Heap) (b : Nat) (key : String)
    (v : JRef) (a : Nat) (key' : String) (hab : a ≠ b) :
    readProp (writeProp h b key v) a key' = readProp h a key' := by
  unfold readProp
  rw [lookup_writeProp_ne h b key v a hab]


/- ──────────────────────────────────────────────────────────────────
   Helper lemmas: one-step unfolding of the fueled merge functions
   ────────────────────────────────────────────────────────────────── -/

theorem deepMergeH_zero (h : Heap) (t : Nat) (srcs : List JRef) :
    deepMergeH 0 h t srcs = none := by
  rw [deepMergeH.eq_def]

theorem deepMergeH_succ (n : Nat) (h : Heap) (t : Nat) (srcs : List JRef) :
    deepMergeH (n+1) h t srcs =
      (match mergeSources n ((h.alloc (.obj (spreadFields h t))).2) h.next srcs with
       | some h2 => some (h.next, h2)
       | none => none) := by
  rw [deepMergeH.eq_def]

theorem mergeSources_zero (h : Heap) (r : Nat) (srcs : List JRef) :
    mergeSources 0 h r srcs = none := by
  rw [mergeSources.eq_def]

theorem mergeSources_nil (n : Nat) (h : Heap) (r : Nat) :
    mergeSources (n+1) h r [] = some h := by
  rw [mergeSources.eq_def]

theorem mergeSources_cons_prim (n : Nat) (h : Heap) (r : Nat) (p : JPrim)
    (rest : List JRef) :
    mergeSources (n+1) h r (.prim p :: rest) = mergeSources n h r rest := by
  rw [mergeSources.eq_def]

theorem mergeSources_cons_addr (n : Nat) (h : Heap) (r s : Nat)
    (rest : List JRef) :
    mergeSources (n+1) h r (.addr s :: rest) =
      (match mergeKeys n h r s (objectKeys h s) with
       | some h2 => mergeSources n h2 r rest
       | none => none) := by
  rw [mergeSources.eq_def]

theorem mergeKeys_zero (h : Heap) (rA sA : Nat) (keys : List String) :
    mergeKeys 0 h rA sA keys = none := by
  rw [mergeKeys.eq_def]

theorem mergeKeys_nil (n : Nat) (h : Heap) (rA sA : Nat) :
    mergeKeys (n+1) h rA sA [] = some h := by
  rw [mergeKeys.eq_def]

theorem mergeKeys_cons (n : Nat) (h : Heap) (rA sA : Nat) (key : String)
    (rest : List String) :
    mergeKeys (n+1) h rA sA (key :: rest) =
      (match readProp h sA key with
       | .prim .undef => mergeKeys n h rA sA rest
       | _ =>
         match readProp h rA key, readProp h sA key with
         | .addr ta, .addr sa =>
           match h.lookup ta, h.lookup sa with
           | some (.obj _), some (.obj _) =>
             match deepMergeH n h ta [.addr sa] with
             | some (m, h2) => mergeKeys n (writeProp h2 rA key (.addr m)) rA sA rest
             | none => none
           | some (.arr te), some (.arr se) =>
             mergeKeys n
               (writeProp ((h.alloc (.arr (jsSetDedup (te ++ se)))).2) rA key (.addr h.next))
               rA sA rest
           | _, _ => mergeKeys n (writeProp h rA key (readProp h sA key)) rA sA rest
         | _, _ => mergeKeys n (writeProp h rA key (readProp h sA key)) rA sA rest) := by
  rw [mergeKeys.eq_def]

/-- Joint frame property of the three merge functions: a successful run
allocates the result at the entry heap's `next` address, strictly grows
`next`, and leaves every previously allocated address untouched (the
inner loops may additionally rewrite the fresh result object `rAddr`).
-/
theorem mergeFrame : ∀ fuel : Nat,
    (∀ h tAddr srcs r h2, deepMergeH fuel h tAddr srcs = some (r, h2) →
      r = h.next ∧ h.next < h2.next ∧ ∀ a, a < h.next → h2.lookup a = h.lookup a)
    ∧ (∀ h rAddr srcs h2, mergeSources fuel h rAddr srcs = some h2 →
      h.next ≤ h2.next ∧ ∀ a, a < h.next → a ≠ rAddr → h2.lookup a = h.lookup a)
    ∧ (∀ h rAddr sAddr keys h2, mergeKeys fuel h rAddr sAddr keys = some h2 →
      h.next ≤ h2.next ∧ ∀ a, a < h.next → a ≠ rAddr → h2.lookup a = h.lookup a) := by
  intro fuel
  induction fuel with
  | zero =>
    refine ⟨?_, ?_, ?_⟩
    · intro h tAddr srcs r h2 he
      rw [deepMergeH_zero] at he
      cases he
    · intro h rAddr srcs h2 he
      rw [mergeSources_zero] at he
      cases he
    · intro h rAddr sAddr keys h2 he
      rw [mergeKeys_zero] at he
      cases he
  | succ n ih =>
    obtain ⟨ihM, ihS, ihK⟩ := ih
    refine ⟨?_, ?_, ?_⟩
    · -- deepMergeH
      intro h tAddr srcs r h2 he
      rw [deepMergeH_succ] at he
      split at he
      · rename_i h3 hms
        simp only [Option.some.injEq, Prod.mk.injEq] at he
        obtain ⟨hr, hh⟩ := he
        subst hr
        subst hh
        obtain ⟨hn, hp⟩ := ihS _ _ _ _ hms
        rw [heap_alloc_next] at hn
        refine ⟨rfl, by omega, ?_⟩
        intro a ha
        rw [hp a (by rw [heap_alloc_next]; omega) (by omega)]
        exact heap_lookup_alloc_ne h _ a (by omega)
      · cases he
    · -- mergeSources
      intro h rAddr srcs h2 he
      cases srcs with
      | nil =>
        rw [mergeSources_nil] at he
        cases he
        exact ⟨le_refl _, fun a _ _ => rfl⟩
      | cons s rest =>
        cases s with
        | prim p =>
          rw [mergeSources_cons_prim] at he
          exact ihS _ _ _ _ he
        | addr sAddr =>
          rw [mergeSources_cons_addr] at he
          split at he
          · rename_i h3 hmk
            obtain ⟨hn1, hp1⟩ := ihK _ _ _ _ _ hmk
            obtain ⟨hn2, hp2⟩ := ihS _ _ _ _ he
            refine ⟨le_trans hn1 hn2, ?_⟩
            intro a ha hra
            rw [hp2 a (lt_of_lt_of_le ha hn1) hra, hp1 a ha hra]
          · cases he
    · -- mergeKeys
      intro h rAddr sAddr keys h2 he
      cases keys with
      | nil =>
        rw [mergeKeys_nil] at he
        cases he
        exact ⟨le_refl _, fun a _ _ => rfl⟩
      | cons key rest =>
        rw [mergeKeys_cons] at he
        split at he
        · exact ihK _ _ _ _ _ he
        · split at he
          · -- tv = .addr ta, sv = .addr sa
            split at he
            · -- both plain objects: recursive merge
              split at he
              · rename_i ta sa hns hta hsa m h4 hdm
                obtain ⟨hrm, hnm, hpm⟩ := ihM _ _ _ _ _ hdm
                obtain ⟨hn2, hp2⟩ := ihK _ _ _ _ _ he
                have e1 := writeProp_next h4 rAddr key (.addr m)
                refine ⟨by omega, ?_⟩
                intro a ha hra
                rw [hp2 a (by omega) hra]
                rw [lookup_writeProp_ne h4 rAddr key (.addr m) a hra]
                exact hpm a ha
              · cases he
            · -- both arrays: fresh deduplicated array
              rename_i ta sa hns te se hta hsa
              obtain ⟨hn2, hp2⟩ := ihK _ _ _ _ _ he
              have e1 := writeProp_next ((h.alloc (.arr (jsSetDedup (te ++ se)))).2) rAddr key (.addr h.next)
              have e2 := heap_alloc_next h (.arr (jsSetDedup (te ++ se)))
              refine ⟨by omega, ?_⟩
              intro a ha hra
              rw [hp2 a (by omega) hra]
              rw [lookup_writeProp_ne _ rAddr key _ a hra]
              exact heap_lookup_alloc_ne h _ a (by omega)
            · -- other node combinations: plain assignment
              obtain ⟨hn2, hp2⟩ := ihK _ _ _ _ _ he
              have e1 := writeProp_next h rAddr key (readProp h sAddr key)
              refine ⟨by omega, ?_⟩
              intro a ha hra
              rw [hp2 a (by omega) hra]
              exact lookup_writeProp_ne h rAddr key _ a hra
          · -- tv or sv not both references: plain assignment
            obtain ⟨hn2, hp2⟩ := ihK _ _ _ _ _ he
            have e1 := writeProp_next h rAddr key (readProp h sAddr key)
            refine ⟨by omega, ?_⟩
            intro a ha hra
            rw [hp2 a (by omega) hra]
            exact lookup_writeProp_ne h rAddr key _ a hra

theorem readProp_congr (h h2 : Heap) (a : Nat) (key : String)
    (hl : h2.lookup a = h.lookup a) : readProp h2 a key = readProp h a key := by
  unfold readProp
  rw [hl]

/-- Processing a key list that does not contain `k` leaves the result
object's field `k` unchanged, grows `next` monotonically, does not
touch other old addresses, and keeps the result node a plain object. -/
theorem mergeKeys_preserves : ∀ fuel h rA sA keys h2 (k : String),
    mergeKeys fuel h rA sA keys = some h2 → k ∉ keys → rA < h.next →
    readProp h2 rA k = readProp h rA k
    ∧ h.next ≤ h2.next
    ∧ (∀ a, a < h.next → a ≠ rA → h2.lookup a = h.lookup a)
    ∧ (∀ f, h.lookup rA = some (.obj f) → ∃ f2, h2.lookup rA = some (.obj f2)) := by
  intro fuel
  induction fuel with
  | zero =>
    intro h rA sA keys h2 k he _ _
    rw [mergeKeys_zero] at he
    cases he
  | succ n ih =>
    intro h rA sA keys h2 k he hk hrA
    cases keys with
    | nil =>
      rw [mergeKeys_nil] at he
      cases he
      exact ⟨rfl, le_refl _, fun a _ _ => rfl, fun f hf => ⟨f, hf⟩⟩
    | cons key rest =>
      have hkey : k ≠ key := fun hkk => hk (hkk ▸ List.mem_cons_self _ _)
      have hkrest : k ∉ rest := fun hkk => hk (List.mem_cons_of_mem _ hkk)
      rw [mergeKeys_cons] at he
      split at he
      · -- source value undefined: skip
        exact ih _ _ _ _ _ _ he hkrest hrA
      · split at he
        · split at he
          · -- both plain objects: recursive merge then write
            split at he
            · rename_i ta sa hns hta hsa m h4 hdm
              obtain ⟨hrm, hnm, hpm⟩ := (mergeFrame n).1 _ _ _ _ _ hdm
              have hwn : (writeProp h4 rA key (.addr m)).next = h4.next :=
                writeProp_next _ _ _ _
              obtain ⟨e1, e2, e3, e4⟩ := ih _ _ _ _ _ k he hkrest (by omega)
              have hrA4 : h4.lookup rA = h.lookup rA := hpm rA hrA
              refine ⟨?_, by omega, ?_, ?_⟩
              · rw [e1, readProp_writeProp_ne_key h4 rA key k (.addr m) hkey]
                exact readProp_congr h h4 rA k hrA4
              · intro a ha hra
                rw [e3 a (by omega) hra,
                  lookup_writeProp_ne h4 rA key (.addr m) a hra]
                exact hpm a ha
              · intro f hf
                exact e4 (assocSet f key (.addr m))
                  (lookup_writeProp_obj h4 rA key (.addr m) f (hrA4.trans hf))
            · cases he
          · -- both arrays: alloc new array then write
            rename_i ta sa hns te se hta hsa
            have hwn :
                (writeProp ((h.alloc (.arr (jsSetDedup (te ++ se)))).2) rA key
                  (.addr h.next)).next
                  = ((h.alloc (.arr (jsSetDedup (te ++ se)))).2).next :=
              writeProp_next _ _ _ _
            have han := heap_alloc_next h (.arr (jsSetDedup (te ++ se)))
            obtain ⟨e1, e2, e3, e4⟩ := ih _ _ _ _ _ k he hkrest (by omega)
            have hrAal :
                ((h.alloc (.arr (jsSetDedup (te ++ se)))).2).lookup rA = h.lookup rA :=
              heap_lookup_alloc_ne h _ rA (by omega)
            refine ⟨?_, by omega, ?_, ?_⟩
            · rw [e1, readProp_writeProp_ne_key _ rA key k (.addr h.next) hkey]
              exact readProp_congr h _ rA k hrAal
            · intro a ha hra
              rw [e3 a (by omega) hra,
                lookup_writeProp_ne _ rA key (.addr h.next) a hra]
              exact heap_lookup_alloc_ne h _ a (by omega)
            · intro f hf
              exact e4 (assocSet f key (.addr h.next))
                (lookup_writeProp_obj _ rA key (.addr h.next) f (hrAal.trans hf))
          · -- node mismatch: plain assignment
            have hwn := writeProp_next h rA key (readProp h sA key)
            obtain ⟨e1, e2, e3, e4⟩ := ih _ _ _ _ _ k he hkrest (by omega)
            refine ⟨?_, by omega, ?_, ?_⟩
            · rw [e1]
              exact readProp_writeProp_ne_key h rA key k _ hkey
            · intro a ha hra
              rw [e3 a (by omega) hra]
              exact lookup_writeProp_ne h rA key _ a hra
            · intro f hf
              exact e4 (assocSet f key (readProp h sA key))
                (lookup_writeProp_obj h rA key _ f hf)
        · -- values not both references: plain assignment
          have hwn := writeProp_next h rA key (readProp h sA key)
          obtain ⟨e1, e2, e3, e4⟩ := ih _ _ _ _ _ k he hkrest (by omega)
          refine ⟨?_, by omega, ?_, ?_⟩
          · rw [e1]
            exact readProp_writeProp_ne_key h rA key k _ hkey
          · intro a ha hra
            rw [e3 a (by omega) hra]
            exact lookup_writeProp_ne h rA key _ a hra
          · intro f hf
            exact e4 (assocSet f key (readProp h sA key))
              (lookup_writeProp_obj h rA key _ f hf)

/-- Precondition bundle for the array-union argument: the freshly
copied result object `rA` holds an array reference at key `k`, and the
source object `sA` holds another array reference at the same key. -/
def mergeUnionPre (h : Heap) (rA sA : Nat) (k : String) (ba oa : Nat)
    (B O : List JRef) : Prop :=
  rA < h.next ∧ sA < h.next ∧ sA ≠ rA
  ∧ (∃ rf, h.lookup rA = some (.obj rf))
  ∧ readProp h rA k = .addr ba ∧ ba < h.next ∧ ba ≠ rA
  ∧ h.lookup ba = some (.arr B)
  ∧ readProp h sA k = .addr oa ∧ oa < h.next ∧ oa ≠ rA
  ∧ h.lookup oa = some (.arr O)

/-- Bundle `mergeUnionPre` is stable under a heap step that grows `next`,
preserves old non-`rA` addresses, keeps `rA` a plain object and keeps
its field `k`. -/
theorem mergeUnionPre_step (h h3 : Heap) (rA sA : Nat) (k : String)
    (ba oa : Nat) (B O : List JRef)
    (hpre : mergeUnionPre h rA sA k ba oa B O)
    (hnext : h.next ≤ h3.next)
    (hlook : ∀ a, a < h.next → a ≠ rA → h3.lookup a = h.lookup a)
    (hobj : ∀ f, h.lookup rA = some (.obj f) → ∃ f2, h3.lookup rA = some (.obj f2))
    (hfield : readProp h3 rA k = readProp h rA k) :
    mergeUnionPre h3 rA sA k ba oa B O := by
  obtain ⟨h1, h2, h3', ⟨rf, hrf⟩, h5, h6, h7, h8, h9, h10, h11, h12⟩ := hpre
  refine ⟨by omega, by omega, h3', hobj rf hrf, by rw [hfield]; exact h5,
    by omega, h7, ?_, ?_, by omega, h11, ?_⟩
  · rw [hlook ba h6 h7]; exact h8
  · rw [readProp_congr h h3 sA k (hlook sA h2 h3')]; exact h9
  · rw [hlook oa h10 h11]; exact h12


/-- Transport the array-union conclusion across one preparatory heap
step. -/
theorem mergeUnionConcl_step (h hstep h2 : Heap) (rA : Nat) (k : String)
    (B O : List JRef)
    (hnext : h.next ≤ hstep.next)
    (hlook : ∀ a, a < h.next → a ≠ rA → hstep.lookup a = h.lookup a)
    (hex : ∃ a2, readProp h2 rA k = .addr a2
      ∧ h2.lookup a2 = some (.arr (jsSetDedup (B ++ O)))
      ∧ a2 ≠ rA ∧ a2 < h2.next
      ∧ hstep.next ≤ h2.next
      ∧ (∀ a, a < hstep.next → a ≠ rA → h2.lookup a = hstep.lookup a)
      ∧ (∃ f2, h2.lookup rA = some (.obj f2))) :
    ∃ a2, readProp h2 rA k = .addr a2
      ∧ h2.lookup a2 = some (.arr (jsSetDedup (B ++ O)))
      ∧ a2 ≠ rA ∧ a2 < h2.next
      ∧ h.next ≤ h2.next
      ∧ (∀ a, a < h.next → a ≠ rA → h2.lookup a = h.lookup a)
      ∧ (∃ f2, h2.lookup rA = some (.obj f2)) := by
  obtain ⟨a2, f1, f2, f3, f4, f5, f6, f7⟩ := hex
  exact ⟨a2, f1, f2, f3, f4, by omega,
    fun a ha hra => (f6 a (by omega) hra).trans (hlook a ha hra), f7⟩

/-- Running the key loop over a list `pre ++ k :: post` in which `k`
occurs exactly once installs, at field `k` of the result object, a
fresh array node holding the deduplicated concatenation of the two
arrays. -/
theorem mergeKeys_array_union : ∀ fuel h rA sA pre post h2 (k : String) ba oa
    (B O : List JRef),
    mergeKeys fuel h rA sA (pre ++ k :: post) = some h2 →
    k ∉ pre → k ∉ post →
    mergeUnionPre h rA sA k ba oa B O →
    ∃ a2, readProp h2 rA k = .addr a2
      ∧ h2.lookup a2 = some (.arr (jsSetDedup (B ++ O)))
      ∧ a2 ≠ rA ∧ a2 < h2.next
      ∧ h.next ≤ h2.next
      ∧ (∀ a, a < h.next → a ≠ rA → h2.lookup a = h.lookup a)
      ∧ (∃ f2, h2.lookup rA = some (.obj f2)) := by
  intro fuel
  induction fuel with
  | zero =>
    intro h rA sA pre post h2 k ba oa B O he _ _ _
    rw [mergeKeys_zero] at he
    cases he
  | succ n ih =>
    intro h rA sA pre post h2 k ba oa B O he hkpre hkpost hpre
    obtain ⟨hb1, hb2, hb3, ⟨rf, hrf⟩, hb5, hb6, hb7, hb8, hb9, hb10, hb11, hb12⟩ := hpre
    cases pre with
    | nil =>
      -- the head key is k itself: the array/array branch fires
      simp only [List.nil_append] at he
      rw [mergeKeys_cons] at he
      split at he
      · -- impossible: the source value at k is an array reference
        rename_i hnu
        rw [hb9] at hnu
        cases hnu
      · split at he
        · rename_i ta sa htv hsv
          rw [hb5] at htv
          obtain rfl : ta = ba := (JRef.addr.inj htv).symm
          rw [hb9] at hsv
          obtain rfl : sa = oa := (JRef.addr.inj hsv).symm
          split at he
          · -- impossible: both nodes are arrays, not objects
            rename_i f1 f2 hta hsa
            rw [hb8] at hta
            cases hta
          · -- the array/array branch
            rename_i te se hta hsa
            rw [hb8] at hta
            rw [hb12] at hsa
            have hte : te = B := (JNode.arr.inj (Option.some.inj hta)).symm
            have hse : se = O := (JNode.arr.inj (Option.some.inj hsa)).symm
            rw [hte, hse] at he
            have han := heap_alloc_next h (.arr (jsSetDedup (B ++ O)))
            have hwn :
                (writeProp ((h.alloc (.arr (jsSetDedup (B ++ O)))).2) rA k
                  (.addr h.next)).next
                = ((h.alloc (.arr (jsSetDedup (B ++ O)))).2).next :=
              writeProp_next _ _ _ _
            have hrAal :
                ((h.alloc (.arr (jsSetDedup (B ++ O)))).2).lookup rA = h.lookup rA :=
              heap_lookup_alloc_ne h _ rA (by omega)
            obtain ⟨e1, e2, e3, e4⟩ :=
              mergeKeys_preserves n _ rA sA post h2 k he hkpost (by omega)
            refine ⟨h.next, ?_, ?_, by omega, by omega, by omega, ?_, ?_⟩
            · rw [e1]
              exact readProp_writeProp_same_obj _ rA k (.addr h.next) rf
                (hrAal.trans hrf)
            · rw [e3 h.next (by omega) (by omega),
                lookup_writeProp_ne _ rA k (.addr h.next) h.next (by omega)]
              exact heap_lookup_alloc_self h _
            · intro a ha hra
              rw [e3 a (by omega) hra,
                lookup_writeProp_ne _ rA k (.addr h.next) a hra]
              exact heap_lookup_alloc_ne h _ a (by omega)
            · exact e4 (assocSet rf k (.addr h.next))
                (lookup_writeProp_obj _ rA k (.addr h.next) rf (hrAal.trans hrf))
          · -- impossible: the nodes at ba and oa are arrays
            rename_i hcatch
            exact absurd (hcatch B O hb8 hb12) (fun hfalse => hfalse)
        · -- impossible: both values are references
          rename_i hcatch
          exact absurd (hcatch ba oa hb5 hb9) (fun hfalse => hfalse)
    | cons p pre' =>
      have hpk : k ≠ p := fun hkk => hkpre (hkk ▸ List.mem_cons_self _ _)
      have hkpre' : k ∉ pre' := fun hkk => hkpre (List.mem_cons_of_mem _ hkk)
      have hpreB : mergeUnionPre h rA sA k ba oa B O :=
        ⟨hb1, hb2, hb3, ⟨rf, hrf⟩, hb5, hb6, hb7, hb8, hb9, hb10, hb11, hb12⟩
      simp only [List.cons_append] at he
      rw [mergeKeys_cons] at he
      split at he
      · -- skip step
        exact ih _ rA sA pre' post h2 k ba oa B O he hkpre' hkpost hpreB
      · split at he
        · rename_i ta sa htv hsv
          split at he
          · -- recursive object merge step
            rename_i f1 f2 hta hsa
            split at he
            · rename_i m h4 hdm
              obtain ⟨hrm, hnm, hpm⟩ := (mergeFrame n).1 _ _ _ _ _ hdm
              have hwn : (writeProp h4 rA p (.addr m)).next = h4.next :=
                writeProp_next _ _ _ _
              have hrA4 : h4.lookup rA = h.lookup rA := hpm rA hb1
              have hstepNext : h.next ≤ (writeProp h4 rA p (.addr m)).next := by omega
              have hstepLook : ∀ a, a < h.next → a ≠ rA →
                  (writeProp h4 rA p (.addr m)).lookup a = h.lookup a := by
                intro a ha hra
                rw [lookup_writeProp_ne h4 rA p (.addr m) a hra]
                exact hpm a ha
              have hstepObj : ∀ f, h.lookup rA = some (.obj f) →
                  ∃ f2, (writeProp h4 rA p (.addr m)).lookup rA = some (.obj f2) :=
                fun f hf => ⟨assocSet f p (.addr m),
                  lookup_writeProp_obj h4 rA p (.addr m) f (hrA4.trans hf)⟩
              have hstepField :
                  readProp (writeProp h4 rA p (.addr m)) rA k = readProp h rA k := by
                rw [readProp_writeProp_ne_key h4 rA p k (.addr m) hpk]
                exact readProp_congr h h4 rA k hrA4
              exact mergeUnionConcl_step h (writeProp h4 rA p (.addr m)) h2 rA k B O
                hstepNext hstepLook
                (ih (writeProp h4 rA p (.addr m)) rA sA pre' post h2 k ba oa B O
                  he hkpre' hkpost
                  (mergeUnionPre_step h (writeProp h4 rA p (.addr m)) rA sA k ba oa B O
                    hpreB hstepNext hstepLook hstepObj hstepField))
            · cases he
          · -- array union step at a key other than k
            rename_i te se hta hsa
            have han := heap_alloc_next h (.arr (jsSetDedup (te ++ se)))
            have hwn :
                (writeProp ((h.alloc (.arr (jsSetDedup (te ++ se)))).2) rA p
                  (.addr h.next)).next
                = ((h.alloc (.arr (jsSetDedup (te ++ se)))).2).next :=
              writeProp_next _ _ _ _
            have hrAal :
                ((h.alloc (.arr (jsSetDedup (te ++ se)))).2).lookup rA = h.lookup rA :=
              heap_lookup_alloc_ne h _ rA (by omega)
            have hstepNext : h.next ≤
                (writeProp ((h.alloc (.arr (jsSetDedup (te ++ se)))).2) rA p
                  (.addr h.next)).next := by omega
            have hstepLook : ∀ a, a < h.next → a ≠ rA →
                (writeProp ((h.alloc (.arr (jsSetDedup (te ++ se)))).2) rA p
                  (.addr h.next)).lookup a = h.lookup a := by
              intro a ha hra
              rw [lookup_writeProp_ne _ rA p (.addr h.next) a hra]
              exact heap_lookup_alloc_ne h _ a (by omega)
            have hstepObj : ∀ f, h.lookup rA = some (.obj f) →
                ∃ f2, (writeProp ((h.alloc (.arr (jsSetDedup (te ++ se)))).2) rA p
                  (.addr h.next)).lookup rA = some (.obj f2) :=
              fun f hf => ⟨assocSet f p (.addr h.next),
                lookup_writeProp_obj _ rA p (.addr h.next) f (hrAal.trans hf)⟩
            have hstepField :
                readProp (writeProp ((h.alloc (.arr (jsSetDedup (te ++ se)))).2) rA p
                  (.addr h.next)) rA k = readProp h rA k := by
              rw [readProp_writeProp_ne_key _ rA p k (.addr h.next) hpk]
              exact readProp_congr h _ rA k hrAal
            exact mergeUnionConcl_step h
              (writeProp ((h.alloc (.arr (jsSetDedup (te ++ se)))).2) rA p (.addr h.next))
              h2 rA k B O hstepNext hstepLook
              (ih (writeProp ((h.alloc (.arr (jsSetDedup (te ++ se)))).2) rA p (.addr h.next))
                rA sA pre' post h2 k ba oa B O he hkpre' hkpost
                (mergeUnionPre_step h
                  (writeProp ((h.alloc (.arr (jsSetDedup (te ++ se)))).2) rA p (.addr h.next))
                  rA sA k ba oa B O hpreB hstepNext hstepLook hstepObj hstepField))
          · -- assignment step
            have hwn := writeProp_next h rA p (readProp h sA p)
            have hstepNext : h.next ≤ (writeProp h rA p (readProp h sA p)).next := by omega
            have hstepLook : ∀ a, a < h.next → a ≠ rA →
                (writeProp h rA p (readProp h sA p)).lookup a = h.lookup a :=
              fun a _ hra => lookup_writeProp_ne h rA p _ a hra
            have hstepObj : ∀ f, h.lookup rA = some (.obj f) →
                ∃ f2, (writeProp h rA p (readProp h sA p)).lookup rA = some (.obj f2) :=
              fun f hf => ⟨assocSet f p (readProp h sA p),
                lookup_writeProp_obj h rA p _ f hf⟩
            have hstepField :
                readProp (writeProp h rA p (readProp h sA p)) rA k = readProp h rA k :=
              readProp_writeProp_ne_key h rA p k _ hpk
            exact mergeUnionConcl_step h (writeProp h rA p (readProp h sA p)) h2 rA k B O
              hstepNext hstepLook
              (ih (writeProp h rA p (readProp h sA p)) rA sA pre' post h2 k ba oa B O
                he hkpre' hkpost
                (mergeUnionPre_step h (writeProp h rA p (readProp h sA p)) rA sA k ba oa B O
                  hpreB hstepNext hstepLook hstepObj hstepField))
        · -- assignment step (values not both references)
          have hwn := writeProp_next h rA p (readProp h sA p)
          have hstepNext : h.next ≤ (writeProp h rA p (readProp h sA p)).next := by omega
          have hstepLook : ∀ a, a < h.next → a ≠ rA →
              (writeProp h rA p (readProp h sA p)).lookup a = h.lookup a :=
            fun a _ hra => lookup_writeProp_ne h rA p _ a hra
          have hstepObj : ∀ f, h.lookup rA = some (.obj f) →
              ∃ f2, (writeProp h rA p (readProp h sA p)).lookup rA = some (.obj f2) :=
            fun f hf => ⟨assocSet f p (readProp h sA p),
              lookup_writeProp_obj h rA p _ f hf⟩
          have hstepField :
              readProp (writeProp h rA p (readProp h sA p)) rA k = readProp h rA k :=
            readProp_writeProp_ne_key h rA p k _ hpk
          exact mergeUnionConcl_step h (writeProp h rA p (readProp h sA p)) h2 rA k B O
            hstepNext hstepLook
            (ih (writeProp h rA p (readProp h sA p)) rA sA pre' post h2 k ba oa B O
              he hkpre' hkpost
              (mergeUnionPre_step h (writeProp h rA p (readProp h sA p)) rA sA k ba oa B O
                hpreB hstepNext hstepLook hstepObj hstepField))

/-- One full run of the heap-level `deepMerge` with a single object
source: if the target holds an array reference at key `k` and the
source holds another at the same key, the result is a fresh object
whose field `k` references a fresh array holding the stable-order
deduplicated concatenation of the two arrays; no pre-existing address
is touched. -/
theorem deepMergeH_array_union (fuel : Nat) (h : Heap) (tA sA : Nat)
    (k : String) (ba oa : Nat) (B O : List JRef)
    (tf sf : List (String × JRef)) (r : Nat) (h2 : Heap)
    (he : deepMergeH fuel h tA [.addr sA] = some (r, h2))
    (htA : h.lookup tA = some (.obj tf))
    (hsA : h.lookup sA = some (.obj sf))
    (hftk : assocGet (.prim .undef) tf k = .addr ba)
    (hfsk : assocGet (.prim .undef) sf k = .addr oa)
    (hnodup : (sf.map Prod.fst).Nodup)
    (hsAlt : sA < h.next)
    (hba : h.lookup ba = some (.arr B)) (hbalt : ba < h.next)
    (hoa : h.lookup oa = some (.arr O)) (hoalt : oa < h.next) :
    r = h.next ∧
    ∃ a2 f2, readProp h2 r k = .addr a2
      ∧ h2.lookup a2 = some (.arr (jsSetDedup (B ++ O)))
      ∧ h2.lookup r = some (.obj f2)
      ∧ assocGet (.prim .undef) f2 k = .addr a2
      ∧ a2 ≠ r ∧ a2 < h2.next ∧ r < h2.next ∧ h.next ≤ h2.next
      ∧ (∀ a, a < h.next → h2.lookup a = h.lookup a) := by
  cases fuel with
  | zero =>
    rw [deepMergeH_zero] at he
    cases he
  | succ n =>
    rw [deepMergeH_succ] at he
    split at he
    · rename_i h3 hms
      simp only [Option.some.injEq, Prod.mk.injEq] at he
      obtain ⟨hr, hh⟩ := he
      subst hr
      subst hh
      have hsp : spreadFields h tA = tf := by
        unfold spreadFields
        rw [htA]
      rw [hsp] at hms
      cases n with
      | zero =>
        rw [mergeSources_zero] at hms
        cases hms
      | succ n2 =>
        rw [mergeSources_cons_addr] at hms
        split at hms
        · rename_i h4 hmk
          cases n2 with
          | zero =>
            rw [mergeSources_zero] at hms
            cases hms
          | succ n3 =>
            rw [mergeSources_nil] at hms
            cases hms
            have hkeys : objectKeys ((h.alloc (.obj tf)).2) sA = sf.map Prod.fst := by
              unfold objectKeys
              rw [heap_lookup_alloc_ne h _ sA (by omega), hsA]
            rw [hkeys] at hmk
            have hkmem : k ∈ sf.map Prod.fst := by
              refine assocGet_ne_default_mem (JRef.prim JPrim.undef) sf k ?_
              rw [hfsk]
              intro hcon
              cases hcon
            obtain ⟨pre, post, hsplit⟩ := List.append_of_mem hkmem
            rw [hsplit] at hmk hnodup
            have hkpost : k ∉ post := by
              have hnp := List.Nodup.of_append_right hnodup
              rw [List.nodup_cons] at hnp
              exact hnp.1
            have hkpre : k ∉ pre := by
              have hd := List.disjoint_of_nodup_append hnodup
              intro hmem
              exact hd hmem (List.mem_cons_self _ _)
            have han := heap_alloc_next h (.obj tf)
            have hpre0 : mergeUnionPre ((h.alloc (.obj tf)).2) h.next sA k ba oa B O := by
              refine ⟨by omega, by omega, by omega,
                ⟨tf, heap_lookup_alloc_self h _⟩, ?_, by omega, by omega, ?_, ?_,
                by omega, by omega, ?_⟩
              · unfold readProp
                rw [heap_lookup_alloc_self h _]
                exact hftk
              · rw [heap_lookup_alloc_ne h _ ba (by omega)]
                exact hba
              · unfold readProp
                rw [heap_lookup_alloc_ne h _ sA (by omega), hsA]
                exact hfsk
              · rw [heap_lookup_alloc_ne h _ oa (by omega)]
                exact hoa
            obtain ⟨a2, g1, g2, g3, g4, g5, g6, ⟨f2, g7⟩⟩ :=
              mergeKeys_array_union (n3+1) _ h.next sA pre post _ k ba oa B O
                hmk hkpre hkpost hpre0
            have g1' : assocGet (.prim .undef) f2 k = .addr a2 := by
              unfold readProp at g1
              rw [g7] at g1
              exact g1
            refine ⟨rfl, a2, f2, g1, g2, g7, g1', g3, g4, by omega, by omega, ?_⟩
            intro a ha
            rw [g6 a (by omega) (by omega)]
            exact heap_lookup_alloc_ne h _ a (by omega)
        · cases hms
    · cases he

/- ──────────────────────────────────────────────────────────────────
   Claim C3 — array merge is deduplicated union, and idempotent
   ────────────────────────────────────────────────────────────────── -/

/-- C3: for a base object holding an array `B` at key `k` and an
override object holding an array `O` at the same key, `deepMerge`
produces at `k` the stable-order deduplicated concatenation
`jsSetDedup (B ++ O)` (base elements first, in original order, then the
override elements not already present); and merging the same override a
second time yields the same array value at `k`. -/
theorem c3_merge_array_union (fuel1 fuel2 : Nat) (h : Heap) (tA sA : Nat)
    (k : String) (ba oa : Nat) (B O : List JRef)
    (tf sf : List (String × JRef)) (r1 r2 : Nat) (h2 h3 : Heap)
    (htA : h.lookup tA = some (.obj tf))
    (hsA : h.lookup sA = some (.obj sf))
    (hftk : assocGet (.prim .undef) tf k = .addr ba)
    (hfsk : assocGet (.prim .undef) sf k = .addr oa)
    (hnodup : (sf.map Prod.fst).Nodup)
    (hsAlt : sA < h.next)
    (hba : h.lookup ba = some (.arr B)) (hbalt : ba < h.next)
    (hoa : h.lookup oa = some (.arr O)) (hoalt : oa < h.next)
    (he1 : deepMergeH fuel1 h tA [.addr sA] = some (r1, h2))
    (he2 : deepMergeH fuel2 h2 r1 [.addr sA] = some (r2, h3)) :
    (∃ a2, readProp h2 r1 k = .addr a2
      ∧ h2.lookup a2 = some (.arr (jsSetDedup (B ++ O))))
    ∧ (∃ a3, readProp h3 r2 k = .addr a3
      ∧ h3.lookup a3 = some (.arr (jsSetDedup (B ++ O)))) := by
  obtain ⟨hr1, a2, f2, g1, g2, g7, g1', g3, g4, g5, g6, gp⟩ :=
    deepMergeH_array_union fuel1 h tA sA k ba oa B O tf sf r1 h2 he1
      htA hsA hftk hfsk hnodup hsAlt hba hbalt hoa hoalt
  refine ⟨⟨a2, g1, g2⟩, ?_⟩
  have hsA2 : h2.lookup sA = some (.obj sf) := by
    rw [gp sA hsAlt]
    exact hsA
  have hoa2 : h2.lookup oa = some (.arr O) := by
    rw [gp oa hoalt]
    exact hoa
  obtain ⟨hr2, a3, f3, m1, m2, m7, m1', m3, m4, m5, m6, mp⟩ :=
    deepMergeH_array_union fuel2 h2 r1 sA k a2 oa (jsSetDedup (B ++ O)) O f2 sf
      r2 h3 he2 g7 hsA2 g1' hfsk hnodup (by omega) g2 g4 hoa2 (by omega)
  rw [jsSetDedup_append_cancel] at m2
  exact ⟨a3, m1, m2⟩

/-- Witness for C3 at a concrete heap (B contains "x", O contains "x"
and "y"; the merged array is ["x", "y"] both after one merge and after
merging the same override twice). -/
theorem c3_merge_array_union_witness :
    deepMergeH 9 c3DemoHeap 2 [.addr 3] = some (4, c3DemoHeap2)
    ∧ deepMergeH 9 c3DemoHeap2 4 [.addr 3] = some (6, c3DemoHeap3)
    ∧ ((∃ a2, readProp c3DemoHeap2 4 "a" = .addr a2
        ∧ c3DemoHeap2.lookup a2 = some (.arr
            (jsSetDedup ([.prim (.str "x")] ++ [.prim (.str "x"), .prim (.str "y")]))))
      ∧ (∃ a3, readProp c3DemoHeap3 6 "a" = .addr a3
        ∧ c3DemoHeap3.lookup a3 = some (.arr
            (jsSetDedup ([.prim (.str "x")] ++ [.prim (.str "x"), .prim (.str "y")]))))) := by
  have he1 : deepMergeH 9 c3DemoHeap 2 [.addr 3] = some (4, c3DemoHeap2) := by
    simp [c3DemoHeap, c3DemoHeap2, deepMergeH.eq_def, mergeSources.eq_def,
      mergeKeys.eq_def, readProp, writeProp, objectKeys, spreadFields, assocGet,
      assocSet, Heap.lookup, Heap.alloc, Heap.set, jsSetDedup, dedupSeen, List.find?]
  have he2 : deepMergeH 9 c3DemoHeap2 4 [.addr 3] = some (6, c3DemoHeap3) := by
    simp [c3DemoHeap, c3DemoHeap2, c3DemoHeap3, deepMergeH.eq_def, mergeSources.eq_def,
      mergeKeys.eq_def, readProp, writeProp, objectKeys, spreadFields, assocGet,
      assocSet, Heap.lookup, Heap.alloc, Heap.set, jsSetDedup, dedupSeen, List.find?]
  refine ⟨he1, he2, ?_⟩
  exact c3_merge_array_union 9 9 c3DemoHeap 2 3 "a" 0 1
    [.prim (.str "x")] [.prim (.str "x"), .prim (.str "y")]
    [("a", .addr 0)] [("a", .addr 1)] 4 6 c3DemoHeap2 c3DemoHeap3
    (by decide) (by decide) (by decide) (by decide) (by decide) (by decide)
    (by decide) (by decide) (by decide) (by decide) he1 he2

/- ──────────────────────────────────────────────────────────────────
   Claim C9 — deepMerge never mutates its arguments
   ────────────────────────────────────────────────────────────────── -/

/-- C9: the heap-level `deepMerge` never mutates its arguments: every
address allocated before the call maps to the same node afterwards (so
the base object, with all of its nested structures, is unchanged), and
the returned merged structure is a freshly allocated object, not the
base. -/
theorem c9_merge_no_mutation (fuel : Nat) (h : Heap) (tAddr : Nat)
    (sources : List JRef) (r : Nat) (h2 : Heap)
    (he : deepMergeH fuel h tAddr sources = some (r, h2)) :
    (∀ a, a < h.next → h2.lookup a = h.lookup a)
    ∧ r = h.next
    ∧ (tAddr < h.next → r ≠ tAddr) := by
  obtain ⟨hr, hn, hp⟩ := (mergeFrame fuel).1 h tAddr sources r h2 he
  exact ⟨hp, hr, fun ht => by omega⟩

/-- Witness for C9 at a concrete two-object heap. -/
theorem c9_merge_no_mutation_witness :
    deepMergeH 5 c9DemoHeap 0 [.addr 1] = some (2, c9DemoMerged)
    ∧ c9DemoMerged.lookup 0 = c9DemoHeap.lookup 0
    ∧ c9DemoMerged.lookup 1 = c9DemoHeap.lookup 1
    ∧ (2 : Nat) ≠ 0 := by
  have he : deepMergeH 5 c9DemoHeap 0 [.addr 1] = some (2, c9DemoMerged) := by
    simp [c9DemoHeap, c9DemoMerged, deepMergeH.eq_def, mergeSources.eq_def,
      mergeKeys.eq_def, readProp, writeProp, objectKeys, spreadFields, assocGet,
      assocSet, Heap.lookup, Heap.alloc, Heap.set, jsSetDedup, dedupSeen, List.find?]
  obtain ⟨hp, hr, hneq⟩ := c9_merge_no_mutation 5 c9DemoHeap 0 [.addr 1] 2 c9DemoMerged he
  exact ⟨he, hp 0 (by decide), hp 1 (by decide), hneq (by decide)⟩

/- ──────────────────────────────────────────────────────────────────
   Claim C4 — loader total fallback
   ────────────────────────────────────────────────────────────────── -/

/-- C4: `loadConfig` is modelled as a total function — the catch branch
absorbs a throwing search, so no branch raises — and with an empty
cache it returns the built-in defaults whenever the search throws,
finds nothing, or finds a result with a falsy config. -/
theorem c4_load_config_fallback (msg : String) (r : CosmicResult) :
    (loadConfig (.error msg) ⟨none⟩).1.config = defaultConfigJ
    ∧ (loadConfig (.ok none) ⟨none⟩).1.config = defaultConfigJ
    ∧ (jsTruthy r.config = false →
        (loadConfig (.ok (some r)) ⟨none⟩).1.config = defaultConfigJ) := by
  refine ⟨rfl, rfl, fun hf => ?_⟩
  simp [loadConfig, hf]

/-- Witness for C4 at a found-but-falsy config. -/
theorem c4_load_config_fallback_witness :
    jsTruthy ((⟨.null, "quicklint.config.js"⟩ : CosmicResult)).config = false
    ∧ (loadConfig (.ok (some ⟨.null, "quicklint.config.js"⟩)) ⟨none⟩).1.config
        = defaultConfigJ :=
  ⟨rfl, (c4_load_config_fallback "boom" ⟨.null, "quicklint.config.js"⟩).2.2 rfl⟩

/- ──────────────────────────────────────────────────────────────────
   Claims C8 and C10 — loader cache behaviour
   ────────────────────────────────────────────────────────────────── -/

theorem loadConfig_caches (e : Except String (Option CosmicResult))
    (st : LoaderState) :
    (loadConfig e st).2 = ⟨some ((loadConfig e st).1.config)⟩ := by
  obtain ⟨cc⟩ := st
  cases cc with
  | some c => rfl
  | none =>
    cases e with
    | error m => rfl
    | ok o =>
      cases o with
      | none => rfl
      | some res =>
        by_cases ht : jsTruthy res.config <;> simp [loadConfig, ht]

/-- C8: a second `loadConfig` call with no cache reset in between
returns the cached configuration of the first call without performing
a new search, and leaves the state unchanged; after `clearConfigCache`
a further call searches again and honours a found config. -/
theorem c8_load_config_cache_idempotent
    (e1 e2 : Except String (Option CosmicResult)) (st : LoaderState)
    (r : CosmicResult) :
    (loadConfig e2 (loadConfig e1 st).2).1.config = (loadConfig e1 st).1.config
    ∧ (loadConfig e2 (loadConfig e1 st).2).1.searched = false
    ∧ (loadConfig e2 (loadConfig e1 st).2).2 = (loadConfig e1 st).2
    ∧ (∀ e3, (loadConfig e3
        (clearConfigCache (loadConfig e2 (loadConfig e1 st).2).2)).1.searched = true)
    ∧ (jsTruthy r.config = true →
        (loadConfig (.ok (some r))
          (clearConfigCache (loadConfig e2 (loadConfig e1 st).2).2)).1.config
        = deepMergeV defaultConfigJ [r.config]) := by
  rw [loadConfig_caches e1 st]
  refine ⟨rfl, rfl, rfl, ?_, ?_⟩
  · intro e3
    cases e3 with
    | error m => rfl
    | ok o =>
      cases o with
      | none => rfl
      | some res => by_cases ht : jsTruthy res.config <;> simp [loadConfig, clearConfigCache, ht]
  · intro ht
    simp [loadConfig, clearConfigCache, ht]

/-- Witness for C8 at concrete search outcomes. -/
theorem c8_load_config_cache_idempotent_witness :
    jsTruthy ((⟨.obj [("prettier", .obj [("semi", .bool false)])], "p"⟩ :
      CosmicResult)).config = true
    ∧ (loadConfig (.ok (some ⟨.obj [("prettier", .obj [("semi", .bool false)])], "p"⟩))
        (clearConfigCache
          (loadConfig (.ok none) (loadConfig (.ok none) ⟨none⟩).2).2)).1.config
      = deepMergeV defaultConfigJ [.obj [("prettier", .obj [("semi", .bool false)])]] :=
  ⟨rfl, (c8_load_config_cache_idempotent (.ok none) (.ok none) ⟨none⟩
      ⟨.obj [("prettier", .obj [("semi", .bool false)])], "p"⟩).2.2.2.2 rfl⟩

/-- C10: `loadConfig` caches on every path, not only on successful
resolution: after a not-found or error call the defaults are cached,
and every subsequent call returns that cached defaults instance with no
new search (even if a config would now be found) — until
`clearConfigCache`, after which a found config is honoured again. -/
theorem c10_load_config_caches_fallback (msg : String)
    (e2 : Except String (Option CosmicResult)) (r : CosmicResult) :
    (loadConfig (.ok none) ⟨none⟩).2.cachedConfig = some defaultConfigJ
    ∧ (loadConfig e2 (loadConfig (.ok none) ⟨none⟩).2).1.config = defaultConfigJ
    ∧ (loadConfig e2 (loadConfig (.ok none) ⟨none⟩).2).1.searched = false
    ∧ (loadConfig (.error msg) ⟨none⟩).2.cachedConfig = some defaultConfigJ
    ∧ (loadConfig e2 (loadConfig (.error msg) ⟨none⟩).2).1.config = defaultConfigJ
    ∧ (loadConfig e2 (loadConfig (.error msg) ⟨none⟩).2).1.searched = false
    ∧ (jsTruthy r.config = true →
        (loadConfig (.ok (some r))
          (clearConfigCache (loadConfig e2 (loadConfig (.ok none) ⟨none⟩).2).2)).1.config
        = deepMergeV defaultConfigJ [r.config]
        ∧ (loadConfig (.ok (some r))
            (clearConfigCache (loadConfig e2 (loadConfig (.ok none) ⟨none⟩).2).2)).1.searched
          = true) := by
  refine ⟨rfl, rfl, rfl, rfl, rfl, rfl, fun ht => ?_⟩
  constructor <;> simp [loadConfig, clearConfigCache, ht]

/-- Witness for C10: a config file appearing after the fallback was
cached is honoured only after an explicit cache reset. -/
theorem c10_load_config_caches_fallback_witness :
    jsTruthy ((⟨.obj [("eslint", .obj [("enabled", .bool false)])], "p"⟩ :
      CosmicResult)).config = true
    ∧ (loadConfig (.ok (some ⟨.obj [("eslint", .obj [("enabled", .bool false)])], "p"⟩))
        (clearConfigCache
          (loadConfig (.ok (some ⟨.obj [("eslint", .obj [("enabled", .bool false)])], "p"⟩))
            (loadConfig (.ok none) ⟨none⟩).2).2)).1.config
      = deepMergeV defaultConfigJ [.obj [("eslint", .obj [("enabled", .bool false)])]] :=
  ⟨rfl, ((c10_load_config_caches_fallback "boom"
      (.ok (some ⟨.obj [("eslint", .obj [("enabled", .bool false)])], "p"⟩))
      ⟨.obj [("eslint", .obj [("enabled", .bool false)])], "p"⟩).2.2.2.2.2.2 rfl).1⟩

/- ──────────────────────────────────────────────────────────────────
   Claim C7 — validateConfig and the null report section
   ────────────────────────────────────────────────────────────────── -/

/-- C7 (code bug): `validateConfig` is claimed never to throw, but the
sonarqube section reads `report.format` after checking only
`sonar.report !== undefined` — for the input with `sonarqube.report`
equal to `null` the read throws a TypeError instead of accumulating an
error. -/
theorem c7_validate_throws_on_null_report :
    validateConfig (.obj [("sonarqube", .obj [("report", .null)])])
      = .error "TypeError: Cannot read properties of null (reading format)" := by
  rfl
